import Mathlib

/-!
# Verification of the go-incr graph runtime

A shallow embedding of the incremental-computation runtime: the
height-bucketed recompute heap (recompute_heap.go), the node metadata
record, the stabilization driver (`Stabilize`, `recompute`,
`stabilizeEnd` from graph.go / stabilize.go), the third `bind`
variant's swap logic (bind.go), and the `DiffMapByKeys` combinator
(map.go).  Go maps are embedded as duplicate-free lists (iteration is
determinized to list order), machine integers as `Nat`/`Int`, user
callbacks (`stabilize`, `cutoff`, the bind delegate) as per-pass
oracles stored on the node record, and handler invocations as event
logs carried on the graph state.  Time, contexts, tracing and mutexes
are omitted: stabilization is single-threaded per graph.
-/

set_option maxHeartbeats 1000000

/-- Errors surfaced by the runtime; user callback errors are
distinguished by an opaque numeric code. -/
inductive GErr where
  | alreadyStabilizing
  | cycleDetected
  | heightTooLarge
  | user (code : Nat)
  deriving DecidableEq, Repr

/-- Modelled from the spec: the `heightUnset` sentinel, an int value
distinct from every valid height (heights are integers `>= 0`), used
for "not scheduled".  Its definition is not under src/; only its uses
are. -/
def heightUnset : Int := -1

/-- The per-node metadata record (node.go `Node`), restricted to the
fields the verified operations read or write.  `cutoffFn` and
`stabilizeFn` are the per-pass oracles for the user callbacks: `none`
means the node does not implement the interface; otherwise the value
is what the callback returns during this pass. -/
structure GNode where
  height : Int := 0
  heightInRecomputeHeap : Int := heightUnset
  changedAt : Nat := 0
  setAt : Nat := 0
  boundAt : Nat := 0
  recomputedAt : Nat := 0
  numRecomputes : Nat := 0
  numChanges : Nat := 0
  always : Bool := false
  valid : Bool := true
  isObserver : Bool := false
  forceNecessary : Bool := false
  cutoffFn : Option (Except GErr Bool) := none
  stabilizeFn : Option (Option GErr) := none
  numOnError : Nat := 0
  numOnUpdate : Nat := 0
  parents : List Nat := []
  children : List Nat := []
  observers : List Nat := []

/-- The node arena: node identifiers are `Nat`, and the store is the
pointer graph (every id resolves; untouched ids are irrelevant). -/
abbrev Store := Nat → GNode

/-- Write one node record back to the arena. -/
def setN (st : Store) (id : Nat) (nd : GNode) : Store :=
  fun j => if j = id then nd else st j

/-- Go map/ordered-set insert keyed by id: a no-op when the key is
already present, an append otherwise. -/
def insertId (l : List Nat) (id : Nat) : List Nat :=
  if id ∈ l then l else l ++ [id]

/-- Go map/ordered-set delete keyed by id. -/
def removeId (l : List Nat) (id : Nat) : List Nat :=
  l.filter (fun x => x ≠ id)

/-- The recompute heap (recompute_heap.go): height-indexed buckets of
node ids plus the id lookup table.  The node store is threaded
separately because heap operations read `height` and write
`heightInRecomputeHeap` through the shared node pointers. -/
structure RH where
  minHeight : Int := 0
  maxHeight : Int := 0
  heights : List (List Nat) := []
  lookup : List Nat := []
  deriving DecidableEq

/-- Read bucket `h`; out-of-range and negative indices read as empty
(the Go code never indexes out of range in reachable states). -/
def bucketAt (hs : List (List Nat)) (h : Int) : List Nat :=
  if h < 0 then [] else hs.getD h.toNat []

/-- Write bucket `h` (in-range in all reachable states). -/
def setBucketAt (hs : List (List Nat)) (h : Int) (b : List Nat) : List (List Nat) :=
  if h < 0 then hs else hs.set h.toNat b

/-- recompute_heap.go `maybeUpdateMinMaxHeights`. -/
def maybeUpdateMinMaxHeights (rh : RH) (newHeight : Int) : RH :=
  if rh.lookup.length = 0 then
    { rh with minHeight := newHeight, maxHeight := newHeight }
  else
    let rh1 := if rh.minHeight > newHeight then { rh with minHeight := newHeight } else rh
    if rh1.maxHeight < newHeight then { rh1 with maxHeight := newHeight } else rh1

/-- recompute_heap.go `maybeAddNewHeights`: grow the bucket array to
cover `newHeight`. -/
def maybeAddNewHeights (rh : RH) (newHeight : Int) : RH :=
  if (rh.heights.length : Int) ≤ newHeight then
    { rh with heights := rh.heights ++ List.replicate (newHeight + 1 - rh.heights.length).toNat [] }
  else rh

/-- recompute_heap.go `addNodeUnsafe`: place the node into the bucket
for its current height, recording that height in
`heightInRecomputeHeap`. -/
def addNode (st : Store) (rh : RH) (id : Nat) : Store × RH :=
  let height := (st id).height
  let st1 := setN st id { st id with heightInRecomputeHeap := height }
  let rh1 := maybeUpdateMinMaxHeights rh height
  let rh2 := maybeAddNewHeights rh1 height
  let b := bucketAt rh2.heights height
  (st1, { rh2 with heights := setBucketAt rh2.heights height (insertId b id),
                   lookup := insertId rh2.lookup id })

/-- recompute_heap.go `addUnsafe` / variadic `add`. -/
def addList (st : Store) (rh : RH) (ids : List Nat) : Store × RH :=
  ids.foldl (fun p id => addNode p.1 p.2 id) (st, rh)

/-- The scan loop inside `nextMinHeightUnsafe`: first non-empty bucket
at index `x` or above, within `fuel` steps; Go's `next` defaults to 0
when the loop finds nothing. -/
def scanFirstNonEmpty (hs : List (List Nat)) (x : Int) : Nat → Int
  | 0 => 0
  | Nat.succ k => if bucketAt hs x ≠ [] then x else scanFirstNonEmpty hs (x + 1) k

/-- recompute_heap.go `nextMinHeightUnsafe`: next smallest height that
has nodes, scanning `minHeight..maxHeight`; returns 0 if the lookup is
empty (the `next` zero value, NOT `heightUnset`). -/
def nextMinHeight (rh : RH) : Int :=
  if rh.lookup.length = 0 then 0
  else scanFirstNonEmpty rh.heights rh.minHeight (rh.maxHeight + 1 - rh.minHeight).toNat

/-- recompute_heap.go `removeMinHeight`: pop every node of the minimum
bucket at once. -/
def removeMinHeight (st : Store) (rh : RH) : Store × RH × List Nat :=
  let b := bucketAt rh.heights rh.minHeight
  if b = [] then (st, rh, [])
  else
    let st1 := b.foldl (fun s id => setN s id { s id with heightInRecomputeHeap := heightUnset }) st
    let lk := b.foldl (fun l id => removeId l id) rh.lookup
    let rh1 := { rh with lookup := lk, heights := setBucketAt rh.heights rh.minHeight [] }
    (st1, { rh1 with minHeight := nextMinHeight rh1 }, b)

/-- The body of `removeMinUnsafe`: scan from `x` for a non-empty
bucket, pop one element of it (map iteration determinized to the list
head). -/
def removeMinScan (st : Store) (rh : RH) (x : Int) : Nat → Store × RH × Option Nat
  | 0 => (st, rh, none)
  | Nat.succ k =>
    match bucketAt rh.heights x with
    | [] => removeMinScan st rh (x + 1) k
    | id :: rest =>
      let st1 := setN st id { st id with heightInRecomputeHeap := heightUnset }
      let rh1 := { rh with heights := setBucketAt rh.heights x rest,
                           lookup := removeId rh.lookup id }
      let rh2 := if rest ≠ [] then { rh1 with minHeight := x }
                 else { rh1 with minHeight := nextMinHeight rh1 }
      (st1, rh2, some id)

/-- recompute_heap.go `removeMinUnsafe` / `removeMin`. -/
def removeMin (st : Store) (rh : RH) : Store × RH × Option Nat :=
  removeMinScan st rh rh.minHeight (rh.maxHeight + 1 - rh.minHeight).toNat

/-- recompute_heap.go `removeItemUnsafe`: remove a known-present item,
advancing `minHeight` when the removal empties the minimum bucket. -/
def removeItem (st : Store) (rh : RH) (id : Nat) : Store × RH :=
  let height := (st id).heightInRecomputeHeap
  let rh1 := { rh with lookup := removeId rh.lookup id,
                       heights := setBucketAt rh.heights height (removeId (bucketAt rh.heights height) id) }
  let isLastAtHeight := bucketAt rh1.heights height = []
  let rh2 := if height = rh1.minHeight ∧ isLastAtHeight
             then { rh1 with minHeight := nextMinHeight rh1 } else rh1
  (setN st id { st id with heightInRecomputeHeap := heightUnset }, rh2)

/-- recompute_heap.go `remove`: lookup-guarded `removeItemUnsafe`. -/
def removeNode (st : Store) (rh : RH) (id : Nat) : Store × RH :=
  if id ∈ rh.lookup then removeItem st rh id else (st, rh)

/-- The representation invariant checked by recompute_heap.go
`sanityCheck`, together with the bookkeeping facts the operations
maintain: the lookup table and the buckets list the same ids, a node
sits in the bucket of its height, `heightInRecomputeHeap` matches, all
non-empty buckets lie between `minHeight` and `maxHeight`, and the
minimum bucket is non-empty whenever the lookup is. -/
def HeapOK (st : Store) (rh : RH) : Prop :=
  rh.lookup.Nodup
  ∧ (∀ i < rh.heights.length, (rh.heights.getD i []).Nodup
      ∧ (rh.heights.getD i [] ≠ [] → rh.minHeight ≤ (i : Int) ∧ (i : Int) ≤ rh.maxHeight)
      ∧ ∀ id ∈ rh.heights.getD i [], id ∈ rh.lookup ∧ (st id).height = (i : Int))
  ∧ (∀ id ∈ rh.lookup, id ∈ rh.heights.getD ((st id).height).toNat []
      ∧ (st id).heightInRecomputeHeap = (st id).height)
  ∧ 0 ≤ rh.minHeight
  ∧ (rh.lookup ≠ [] → rh.heights.getD rh.minHeight.toNat [] ≠ [])

instance (st : Store) (rh : RH) : Decidable (HeapOK st rh) := by
  unfold HeapOK; infer_instance

/-- Concrete heap used to refute the `heightUnset` clause of the
minimum-height claim: a single node (id 1) at height 2. -/
def c6Store : Store := fun i =>
  if i = 1 then { height := 2, heightInRecomputeHeap := 2 } else {}

/-- Concrete heap state paired with `c6Store`. -/
def c6RH : RH :=
  { minHeight := 2, maxHeight := 2, heights := [[], [], [1]], lookup := [1] }


/-! ## Graph state and stabilization (graph.go, stabilize.go) -/

/-- `StatusNotStabilizing`, the graph status default. -/
def StatusNotStabilizing : Int := 0

/-- `StatusStabilizing`. -/
def StatusStabilizing : Int := 1

/-- `StatusRunningUpdateHandlers`. -/
def StatusRunningUpdateHandlers : Int := 2

/-- Instrumentation events recording the order of the observable
steps inside `stabilizeEnd`. -/
inductive GEvent where
  | incStabNum
  | appliedSetDuring (id : Nat)
  deriving DecidableEq

/-- Is the event a `setDuringStabilization` application? -/
def GEvent.isApplied : GEvent → Bool
  | GEvent.appliedSetDuring _ => true
  | _ => false

/-- The graph state (graph.go `Graph`), restricted to the fields the
verified operations touch, plus ghost logs: `firedErrors` records
`onError` handler invocations, `firedUpdates` the update handlers run
at pass end, `recomputeLog` the nodes `recompute` was called on,
`events` the ordered `stabilizeEnd` steps, and `discovered` the
(observer, node) discovery pairs maintained by
`DiscoverNodes`/`UndiscoverNodes`. -/
structure GGraph where
  store : Store
  nodes : List Nat := []
  rh : RH := {}
  stabilizationNum : Nat := 1
  status : Int := StatusNotStabilizing
  numNodesRecomputed : Nat := 0
  numNodesChanged : Nat := 0
  setDuringStabilization : List Nat := []
  handleAfterStabilization : List (Nat × Nat) := []
  firedErrors : List (Nat × GErr) := []
  firedUpdates : List (Nat × Nat) := []
  recomputeLog : List Nat := []
  events : List GEvent := []
  discovered : List (Nat × Nat) := []

/-- node.go `maybeCutoff`: call the cutoff delegate if set, else
`(false, nil)`. -/
def maybeCutoff (nd : GNode) : Except GErr Bool :=
  match nd.cutoffFn with
  | none => Except.ok false
  | some r => r

/-- node.go `maybeStabilize`: call the stabilize delegate if set. -/
def maybeStabilize (nd : GNode) : Option GErr :=
  match nd.stabilizeFn with
  | none => none
  | some r => r

/-- Modelled from the spec (invariant 4): a node is necessary iff it
is an observer or at least one observer is attached to it (the
`isNecessary` helper is not under src/; only its callers are).
`forceNecessary` is the override used by `changeParent`. -/
def isNecessary (nd : GNode) : Bool :=
  nd.isObserver || nd.forceNecessary || !nd.observers.isEmpty

/-- Modelled from the spec (invariant 5): a node is stale iff it has
never been computed, is `always`, was set or re-bound after its last
compute, or a parent's `changedAt` exceeds its `recomputedAt` (the
`isStale` helper is not under src/; only its callers are). -/
def isStale (st : Store) (nd : GNode) : Bool :=
  nd.recomputedAt = 0 || nd.always
    || nd.recomputedAt < nd.setAt || nd.recomputedAt < nd.boundAt
    || nd.parents.any (fun p => nd.recomputedAt < (st p).changedAt)

/-- graph.go `SetStale`: stamp `setAt` and enqueue if not already in
the recompute heap. -/
def SetStaleG (g : GGraph) (id : Nat) : GGraph :=
  let g1 := { g with store := setN g.store id { g.store id with setAt := g.stabilizationNum } }
  if (g1.store id).heightInRecomputeHeap = heightUnset then
    let p := addNode g1.store g1.rh id
    { g1 with store := p.1, rh := p.2 }
  else g1

/-- The child/observer re-enqueue loops at the end of graph.go
`recompute`: add every listed node that is necessary, stale, and not
already in the heap. -/
def enqueueStale (g : GGraph) (ids : List Nat) : GGraph :=
  ids.foldl
    (fun g c =>
      if isNecessary (g.store c) && isStale g.store (g.store c)
          && decide ((g.store c).heightInRecomputeHeap = heightUnset) then
        let p := addNode g.store g.rh c
        { g with store := p.1, rh := p.2 }
      else g)
    g

/-- The node updates at the head of graph.go `recompute`:
`numRecomputes++`, `recomputedAt := stabilizationNum`. -/
def stampNode (nd : GNode) (num : Nat) : GNode :=
  { nd with numRecomputes := nd.numRecomputes + 1, recomputedAt := num }

/-- The unconditional head of graph.go `recompute`: bump the
graph-level and node-level recompute counters and stamp
`recomputedAt`. -/
def recomputeStamp (g : GGraph) (nid : Nat) : GGraph :=
  { g with numNodesRecomputed := g.numNodesRecomputed + 1,
           store := setN g.store nid (stampNode (g.store nid) g.stabilizationNum),
           recomputeLog := g.recomputeLog ++ [nid] }

/-- The `onError` handler loop of graph.go `recompute`. -/
def fireErrorHandlers (g : GGraph) (nid : Nat) (cnt : Nat) (e : GErr) : GGraph :=
  { g with firedErrors := g.firedErrors ++ List.replicate cnt (nid, e) }

/-- The node update before the stabilize delegate runs:
`numChanges++`. -/
def bumpChanges (nd : GNode) : GNode :=
  { nd with numChanges := nd.numChanges + 1 }

/-- The graph update before the stabilize delegate runs:
`numNodesChanged++` plus the node write-back. -/
def stampChanged (g : GGraph) (nid : Nat) (nn2 : GNode) : GGraph :=
  { g with numNodesChanged := g.numNodesChanged + 1,
           store := setN g.store nid nn2 }

/-- The success tail of graph.go `recompute`: stamp `changedAt`, queue
the node's update handlers, and re-enqueue the stale necessary
children and observers. -/
def recomputeFinish (g2 : GGraph) (nid : Nat) (nn2 : GNode) : GGraph :=
  let nn3 := { nn2 with changedAt := g2.stabilizationNum }
  let g3 := { g2 with store := setN g2.store nid nn3 }
  let g4 := if 0 < nn3.numOnUpdate
            then { g3 with handleAfterStabilization :=
                     g3.handleAfterStabilization ++ [(nid, nn3.numOnUpdate)] }
            else g3
  enqueueStale (enqueueStale g4 nn3.children) nn3.observers

/-- graph.go `recompute`: bump the recompute counters and
`recomputedAt`, consult the cutoff, run the stabilize delegate, then
on success stamp `changedAt`, queue the update handlers, and re-enqueue
stale necessary children and observers.  On a callback error the
node's `onError` handlers fire and the error is returned. -/
def recompute (g : GGraph) (nid : Nat) : GGraph × Option GErr :=
  let nn1 := stampNode (g.store nid) g.stabilizationNum
  let g1 := recomputeStamp g nid
  match maybeCutoff nn1 with
  | Except.error e => (fireErrorHandlers g1 nid nn1.numOnError e, some e)
  | Except.ok true => (g1, none)
  | Except.ok false =>
    let nn2 := bumpChanges nn1
    let g2 := stampChanged g1 nid nn2
    match maybeStabilize nn2 with
    | some e => (fireErrorHandlers g2 nid nn2.numOnError e, some e)
    | none => (recomputeFinish g2 nid nn2, none)

/-- graph.go `ensureNotStabilizing`. -/
def ensureNotStabilizing (g : GGraph) : Option GErr :=
  if g.status ≠ StatusNotStabilizing then some GErr.alreadyStabilizing else none

/-- graph.go `stabilizeStart` (handler and timing side effects are not
modelled). -/
def stabilizeStart (g : GGraph) : GGraph :=
  { g with status := StatusStabilizing }

/-- The inner loop of stabilize.go `Stabilize`: recompute each node of
the popped batch, collecting `always` nodes for post-pass re-add, and
break on the first error (the failing node is never collected). -/
def runBatch (g : GGraph) (batch : List Nat) (imm : List Nat) : GGraph × List Nat × Option GErr :=
  match batch with
  | [] => (g, imm, none)
  | n :: rest =>
    let p := recompute g n
    match p.2 with
    | some e => (p.1, imm, some e)
    | none =>
      runBatch p.1 rest (if (p.1.store n).always then imm ++ [n] else imm)

/-- The outer drain loop of stabilize.go `Stabilize`: while the lookup
is non-empty, pop the minimum-height batch and run it; stop on error.
`fuel` bounds the iteration count (the Go loop terminates because
heights are bounded; exhausted fuel exits the loop). -/
def drainLoop : Nat → GGraph → List Nat → GGraph × List Nat × Option GErr
  | 0, g, imm => (g, imm, none)
  | Nat.succ fuel, g, imm =>
    if 0 < g.rh.lookup.length then
      let q := removeMinHeight g.store g.rh
      let r := runBatch { g with store := q.1, rh := q.2.1 } q.2.2 imm
      match r.2.2 with
      | some e => (r.1, r.2.1, some e)
      | none => drainLoop fuel r.1 r.2.1
    else (g, imm, none)

/-- graph.go `stabilizeEndRunUpdateHandlers`: switch to
`RunningUpdateHandlers`, fire every queued update handler, clear the
queue. -/
def stabilizeEndRunUpdateHandlers (g : GGraph) : GGraph :=
  { g with status := StatusRunningUpdateHandlers,
           firedUpdates := g.firedUpdates ++ g.handleAfterStabilization,
           handleAfterStabilization := [] }

/-- One iteration of graph.go
`stabilizeEndHandleSetDuringStabilization`: stabilize the recorded
variable (its value effect is not modelled) and mark it stale. -/
def applySetDuringStep (g : GGraph) (id : Nat) : GGraph :=
  SetStaleG { g with events := g.events ++ [GEvent.appliedSetDuring id] } id

/-- graph.go `stabilizeEndHandleSetDuringStabilization`: drain the
variables set while stabilizing, then clear the map. -/
def stabilizeEndHandleSetDuring (g : GGraph) : GGraph :=
  let g1 := g.setDuringStabilization.foldl applySetDuringStep g
  { g1 with setDuringStabilization := [] }

/-- graph.go `stabilizeEnd`: run the queued update handlers, increment
the stabilization number, then apply `setDuringStabilization`;
finally restore `NotStabilizing` (the deferred block). -/
def stabilizeEnd (g : GGraph) (_err : Option GErr) : GGraph :=
  let g1 := stabilizeEndRunUpdateHandlers g
  let g2 := { g1 with stabilizationNum := g1.stabilizationNum + 1,
                      events := g1.events ++ [GEvent.incStabNum] }
  let g3 := stabilizeEndHandleSetDuring g2
  { g3 with status := StatusNotStabilizing }

/-- stabilize.go `Stabilize`: guard against concurrent stabilization,
drain the recompute heap in height order, re-add the collected
`always` nodes after the loop, and finish with `stabilizeEnd`. -/
def Stabilize (fuel : Nat) (g : GGraph) : GGraph × Option GErr :=
  match ensureNotStabilizing g with
  | some e => (g, some e)
  | none =>
    let r := drainLoop fuel (stabilizeStart g) []
    let p := addList r.1.store r.1.rh r.2.1
    (stabilizeEnd { r.1 with store := p.1, rh := p.2 } r.2.2, r.2.2)

/-- The claim's reading of the C5 ordering: every
`setDuringStabilization` application event precedes the
stabilization-number increment event. -/
def applyBeforeInc (l : List GEvent) : Prop :=
  ∀ i : Fin l.length, ∀ j : Fin l.length,
    l.get i = GEvent.incStabNum → (l.get j).isApplied = true → (j : Nat) < (i : Nat)

instance (l : List GEvent) : Decidable (applyBeforeInc l) := by
  unfold applyBeforeInc; infer_instance

/-- Concrete graph used for the C5 counterexample: stabilization
number 5, one variable (id 7) recorded in `setDuringStabilization`. -/
def c5Graph : GGraph :=
  { store := fun _ => {}, stabilizationNum := 5, status := StatusStabilizing,
    setDuringStabilization := [7] }

/-! ## Linking, discovery, and the bind swap (bind.go, third variant) -/

/-- The link block of graph.go `addChildWithoutAdjustingHeights`
(`start_link` / `end_link`), which is what the older API's
`Link(child, parent)` performs: the parent gains the child, the child
gains the parent as an input. -/
def linkStore (st : Store) (child parent : Nat) : Store :=
  let st1 := setN st parent { st parent with children := insertId (st parent).children child }
  setN st1 child { st1 child with parents := insertId (st1 child).parents parent }

/-- graph.go `unlink`: remove the parent-child edge pair. -/
def unlinkStore (st : Store) (child parent : Nat) : Store :=
  let st1 := setN st child { st child with parents := removeId (st child).parents parent }
  setN st1 parent { st1 parent with children := removeId (st1 parent).children child }

/-- `Link` lifted to the graph state. -/
def LinkG (g : GGraph) (child parent : Nat) : GGraph :=
  { g with store := linkStore g.store child parent }

/-- `Unlink` lifted to the graph state. -/
def UnlinkG (g : GGraph) (child parent : Nat) : GGraph :=
  { g with store := unlinkStore g.store child parent }

/-- Modelled from the spec: `DiscoverNodes(observer, node)` registers
the node with the observer (its body is not under src/; only callers
are).  Transitive discovery of the node's parents is omitted; the
direct pair suffices for the bind claim. -/
def DiscoverNodesG (g : GGraph) (obs nid : Nat) : GGraph :=
  { g with discovered :=
      if (obs, nid) ∈ g.discovered then g.discovered else g.discovered ++ [(obs, nid)] }

/-- Modelled from the spec: `UndiscoverNodes(observer, node)` removes
the registration (its body is not under src/; only callers are). -/
def UndiscoverNodesG (g : GGraph) (obs nid : Nat) : GGraph :=
  { g with discovered := g.discovered.filter (fun p => p ≠ (obs, nid)) }

/-- node.go `computePseudoHeight` with explicit recursion fuel: the
maximum over the parents' pseudo-heights, bumped by one, but never
below the height the node has already seen. -/
def pseudoHeight (st : Store) : Nat → Nat → Int
  | 0, id => (st id).height
  | Nat.succ f, id =>
    let mph := (st id).parents.foldl (fun m p => max m (pseudoHeight st f p)) 0
    if (st id).height > mph then (st id).height else mph + 1

/-- Modelled from the spec: `RecomputeHeights` on a node repairs its
height after a bind change (its body is not under src/; only its call
site in `linkNew` is); it rewrites only the node's `height` field. -/
def RecomputeHeightsG (g : GGraph) (hfuel : Nat) (id : Nat) : GGraph :=
  { g with store := setN g.store id { g.store id with height := pseudoHeight g.store hfuel id } }

/-- The mutable per-bind state of bind.go `bindIncr`: the owning node
id, the currently bound node, and the oracle for what the bind
delegate returns this pass (`none` inside `ok` models a nil
incremental). -/
structure BindRec where
  nodeId : Nat
  bound : Option Nat := none
  fnResult : Except GErr (Option Nat)

/-- bind.go `unlinkOld`: unlink every child of the bind node from the
old bound node, undiscover it from every observer of the bind node,
and clear `bound`. -/
def bindUnlinkOld (g : GGraph) (b : BindRec) (oldId : Nat) : GGraph × BindRec :=
  let g1 := ((g.store b.nodeId).children).foldl (fun g c => UnlinkG g c oldId) g
  let g2 := ((g1.store b.nodeId).observers).foldl (fun g o => UndiscoverNodesG g o oldId) g1
  (g2, { b with bound := none })

/-- bind.go `linkNew`: link every child of the bind node to the new
bound node (repairing its height), discover it for every observer,
stamp the new node's `changedAt`, and enqueue it. -/
def bindLinkNew (g : GGraph) (hfuel : Nat) (b : BindRec) (newId : Nat) : GGraph × BindRec :=
  let g1 := ((g.store b.nodeId).children).foldl
      (fun g c => RecomputeHeightsG (LinkG g c newId) hfuel c) g
  let g2 := ((g1.store b.nodeId).observers).foldl (fun g o => DiscoverNodesG g o newId) g1
  let nn := { g2.store newId with changedAt := g2.stabilizationNum }
  let g3 := { g2 with store := setN g2.store newId nn }
  let p := addNode g3.store g3.rh newId
  ({ g3 with store := p.1, rh := p.2 }, { b with bound := some newId })

/-- Stamp the bind node's `boundAt` (the `bindChanged` epilogue of
bind.go `Bind`). -/
def bindStampBoundAt (g : GGraph) (b : BindRec) : GGraph :=
  { g with store := setN g.store b.nodeId { g.store b.nodeId with boundAt := g.stabilizationNum } }

/-- bind.go `Bind` (third variant): evaluate the bind delegate, swap
the bound node when it changed, and stamp `boundAt` iff a swap
happened. -/
def bindStep (g : GGraph) (hfuel : Nat) (b : BindRec) : GGraph × BindRec × Option GErr :=
  match b.fnResult with
  | Except.error e => (g, b, some e)
  | Except.ok newOpt =>
    match b.bound, newOpt with
    | some oldId, some newId =>
      if oldId ≠ newId then
        let p1 := bindUnlinkOld g b oldId
        let p2 := bindLinkNew p1.1 hfuel p1.2 newId
        (bindStampBoundAt p2.1 p2.2, p2.2, none)
      else (g, b, none)
    | none, some newId =>
      let p2 := bindLinkNew g hfuel b newId
      (bindStampBoundAt p2.1 p2.2, p2.2, none)
    | some oldId, none =>
      let p1 := bindUnlinkOld g b oldId
      (bindStampBoundAt p1.1 p1.2, p1.2, none)
    | none, none => (g, b, none)

/-! ## DiffMapByKeys (map.go) -/

/-- map.go `DiffMapByKeys`, reduced to its linking effect: construct
the added-keys node and the removed-keys node and perform the two
`Link` calls exactly as written in the source — both of which name the
added-keys node. -/
def diffMapByKeysLinks (st : Store) (input addId remId : Nat) : Store :=
  let st1 := linkStore st addId input
  linkStore st1 addId input

/-- Fresh arena for the DiffMapByKeys check. -/
def c9Store : Store := fun _ => {}


/-- What `minHeight` maintenance actually guarantees after a removal
empties the minimum bucket: `minHeight` points at the least non-empty
bucket when the heap is non-empty, and is 0 (not `heightUnset`) when
the heap became empty. -/
def MinAdvanced (rh : RH) : Prop :=
  (rh.lookup = [] → rh.minHeight = 0) ∧
  (rh.lookup ≠ [] → rh.heights.getD rh.minHeight.toNat [] ≠ [] ∧
    ∀ i : Nat, rh.heights.getD i [] ≠ [] → rh.minHeight ≤ (i : Int))

/-- Height discipline of the graph's edges: every child and observer
of a known node sits strictly above it (graph.go maintains this
through the height-adjustment machinery; `recompute` relies on it when
re-enqueueing downstream nodes). -/
def EdgeOK (g : GGraph) : Prop :=
  ∀ id ∈ g.nodes, ∀ c ∈ (g.store id).children ++ (g.store id).observers,
    (g.store id).height < (g.store c).height

instance (g : GGraph) : Decidable (EdgeOK g) := by
  unfold EdgeOK; infer_instance

/-- Closure of the node set: the recompute heap holds only known
nodes, known nodes have non-negative heights, and edges stay inside
the node set. -/
def ClosedOK (g : GGraph) : Prop :=
  (∀ k ∈ g.rh.lookup, k ∈ g.nodes) ∧
  (∀ id ∈ g.nodes, 0 ≤ (g.store id).height) ∧
  (∀ id ∈ g.nodes, ∀ c ∈ (g.store id).children ++ (g.store id).observers, c ∈ g.nodes)

instance (g : GGraph) : Decidable (ClosedOK g) := by
  unfold ClosedOK; infer_instance

/-- Two stores agree on the structural fields a stabilization pass
never rewrites: heights, edges, and the `always` flag. -/
def coreEq (s1 s2 : Store) : Prop :=
  ∀ m, (s1 m).height = (s2 m).height ∧ (s1 m).children = (s2 m).children ∧
    (s1 m).observers = (s2 m).observers ∧ (s1 m).always = (s2 m).always

/-! ## Concrete states for witnesses -/

/-- A node whose cutoff fires: used for the C2 witness. -/
def c2Graph : GGraph :=
  { store := fun i =>
      if i = 1 then { changedAt := 4, cutoffFn := some (Except.ok true),
                      numOnUpdate := 1, children := [2] }
      else {},
    stabilizationNum := 6, status := StatusStabilizing, rh := { heights := [[]], lookup := [] } }

/-- A node whose stabilize callback errors (node 1, two onError
handlers, one queued-update handler, child 2): used for the C3 and
C10 witnesses. -/
def c10Graph : GGraph :=
  { store := fun i =>
      if i = 1 then { heightInRecomputeHeap := 0,
                      stabilizeFn := some (some (GErr.user 3)),
                      numOnError := 2, numOnUpdate := 1, changedAt := 4,
                      numRecomputes := 10, numChanges := 9, children := [2] }
      else if i = 2 then { height := 1, heightInRecomputeHeap := 1,
                           stabilizeFn := some none }
      else {},
    nodes := [1, 2], stabilizationNum := 6, status := StatusNotStabilizing,
    numNodesRecomputed := 30, numNodesChanged := 20,
    rh := { minHeight := 0, maxHeight := 1, heights := [[1], [2]], lookup := [1, 2] } }

/-- A single observed `always` node sitting in the heap: used for the
C8 witness. -/
def c8Graph : GGraph :=
  { store := fun i =>
      if i = 1 then { heightInRecomputeHeap := 0, always := true,
                      stabilizeFn := some none, isObserver := true }
      else {},
    nodes := [1], stabilizationNum := 2, status := StatusNotStabilizing,
    rh := { minHeight := 0, maxHeight := 0, heights := [[1]], lookup := [1] } }

/-- A bind node (10) with one reader child (2), one observer (7), an
old bound node (3) and a new bound node (4): used for the C4
witness. -/
def c4Graph : GGraph :=
  { store := fun i =>
      if i = 10 then { children := [2], observers := [7], parents := [5] }
      else if i = 2 then { height := 1, parents := [10, 3] }
      else if i = 3 then { height := 1, children := [2] }
      else if i = 4 then { height := 0 }
      else {},
    stabilizationNum := 9, status := StatusStabilizing,
    rh := { heights := [[], []], lookup := [] },
    discovered := [(7, 3)] }

/-- The bind record for the C4 witness: bound to 3, delegate returns
4. -/
def c4Bind : BindRec :=
  { nodeId := 10, bound := some 3, fnResult := Except.ok (some 4) }

/-! ## Generic helper lemmas -/

theorem setN_same (st : Store) (id : Nat) (nd : GNode) : setN st id nd id = nd := by
  simp [setN]

theorem setN_ne (st : Store) (id : Nat) (nd : GNode) (j : Nat) (h : j ≠ id) :
    setN st id nd j = st j := by
  simp [setN, h]

theorem mem_insertId (l : List Nat) (id a : Nat) :
    a ∈ insertId l id ↔ a ∈ l ∨ a = id := by
  unfold insertId
  by_cases h : id ∈ l
  · simp only [if_pos h]
    constructor
    · exact fun hm => Or.inl hm
    · rintro (hm | rfl)
      · exact hm
      · exact h
  · simp [if_neg h]

theorem insertId_self_mem (l : List Nat) (id : Nat) : id ∈ insertId l id := by
  rw [mem_insertId]; exact Or.inr rfl

theorem mem_insertId_of_mem (l : List Nat) (id a : Nat) (h : a ∈ l) : a ∈ insertId l id := by
  rw [mem_insertId]; exact Or.inl h

theorem insertId_of_mem (l : List Nat) (id : Nat) (h : id ∈ l) : insertId l id = l := by
  simp [insertId, h]

theorem insertId_of_not_mem (l : List Nat) (id : Nat) (h : id ∉ l) :
    insertId l id = l ++ [id] := by
  simp [insertId, h]

theorem insertId_nodup (l : List Nat) (id : Nat) (h : l.Nodup) : (insertId l id).Nodup := by
  unfold insertId
  by_cases hm : id ∈ l
  · simpa [hm]
  · simp only [if_neg hm]
    rw [List.nodup_append]
    refine ⟨h, List.nodup_singleton id, ?_⟩
    intro a ha hb
    simp only [List.mem_singleton] at hb
    subst hb
    exact hm ha

theorem insertId_ne_nil (l : List Nat) (id : Nat) : insertId l id ≠ [] := by
  intro h
  have := insertId_self_mem l id
  rw [h] at this
  exact (List.not_mem_nil id) this

theorem mem_removeId (l : List Nat) (id a : Nat) :
    a ∈ removeId l id ↔ a ∈ l ∧ a ≠ id := by
  unfold removeId
  rw [List.mem_filter]
  simp

theorem removeId_nodup (l : List Nat) (id : Nat) (h : l.Nodup) : (removeId l id).Nodup :=
  h.filter _

theorem not_mem_removeId_self (l : List Nat) (id : Nat) : id ∉ removeId l id := by
  intro h
  exact ((mem_removeId l id id).1 h).2 rfl

theorem not_mem_removeId (l : List Nat) (id a : Nat) (h : a ∉ l) : a ∉ removeId l id := by
  intro hm
  exact h ((mem_removeId l id a).1 hm).1

/-- Bucket read of a written index. -/
theorem getDb_set_eq (hs : List (List Nat)) (i : Nat) (b : List Nat) (h : i < hs.length) :
    (hs.set i b).getD i [] = b := by
  rw [List.getD_eq_getElem?_getD, List.getElem?_set_eq_of_lt b h]
  rfl

/-- Bucket read away from a written index. -/
theorem getDb_set_ne (hs : List (List Nat)) (i j : Nat) (b : List Nat) (h : i ≠ j) :
    (hs.set i b).getD j [] = hs.getD j [] := by
  rw [List.getD_eq_getElem?_getD, List.getElem?_set_ne h, ← List.getD_eq_getElem?_getD]

/-- Bucket reads ignore trailing empty growth. -/
theorem getDb_append_replicate (hs : List (List Nat)) (k i : Nat) :
    (hs ++ List.replicate k ([] : List Nat)).getD i [] = hs.getD i [] := by
  by_cases h : i < hs.length
  · rw [List.getD_eq_getElem?_getD, List.getElem?_append_left h, ← List.getD_eq_getElem?_getD]
  · push_neg at h
    rw [List.getD_eq_default _ _ h, List.getD_eq_getElem?_getD, List.getElem?_append_right h,
      List.getElem?_replicate]
    by_cases h2 : i - hs.length < k
    · simp [h2]
    · simp [h2]

theorem getDb_len_le (hs : List (List Nat)) (i : Nat) (h : hs.length ≤ i) :
    hs.getD i [] = [] :=
  List.getD_eq_default hs [] h

/-! ## HeapOK accessors -/

theorem HeapOK.lookup_nodup {st : Store} {rh : RH} (h : HeapOK st rh) : rh.lookup.Nodup :=
  h.1

theorem HeapOK.bucket_nodup {st : Store} {rh : RH} (h : HeapOK st rh) (i : Nat) :
    (rh.heights.getD i []).Nodup := by
  by_cases hi : i < rh.heights.length
  · exact (h.2.1 i hi).1
  · push_neg at hi
    rw [getDb_len_le _ _ hi]
    exact List.nodup_nil

theorem HeapOK.bucket_bounds {st : Store} {rh : RH} (h : HeapOK st rh) (i : Nat)
    (hne : rh.heights.getD i [] ≠ []) : rh.minHeight ≤ (i : Int) ∧ (i : Int) ≤ rh.maxHeight := by
  by_cases hi : i < rh.heights.length
  · exact (h.2.1 i hi).2.1 hne
  · push_neg at hi
    exact absurd (getDb_len_le _ _ hi) hne

theorem HeapOK.bucket_spec {st : Store} {rh : RH} (h : HeapOK st rh) (i : Nat) (id : Nat)
    (hm : id ∈ rh.heights.getD i []) : id ∈ rh.lookup ∧ (st id).height = (i : Int) := by
  by_cases hi : i < rh.heights.length
  · exact (h.2.1 i hi).2.2 id hm
  · push_neg at hi
    rw [getDb_len_le _ _ hi] at hm
    exact absurd hm (List.not_mem_nil id)

theorem HeapOK.lookup_spec {st : Store} {rh : RH} (h : HeapOK st rh) (id : Nat)
    (hm : id ∈ rh.lookup) :
    id ∈ rh.heights.getD ((st id).height).toNat [] ∧
      (st id).heightInRecomputeHeap = (st id).height :=
  h.2.2.1 id hm

theorem HeapOK.min_nonneg {st : Store} {rh : RH} (h : HeapOK st rh) : 0 ≤ rh.minHeight :=
  h.2.2.2.1

theorem HeapOK.min_bucket {st : Store} {rh : RH} (h : HeapOK st rh) (hne : rh.lookup ≠ []) :
    rh.heights.getD rh.minHeight.toNat [] ≠ [] :=
  h.2.2.2.2 hne

/-- In-heap nodes have the height of their (non-negative) bucket. -/
theorem HeapOK.height_nonneg {st : Store} {rh : RH} (h : HeapOK st rh) (id : Nat)
    (hm : id ∈ rh.lookup) : 0 ≤ (st id).height := by
  obtain ⟨hb, _⟩ := h.lookup_spec id hm
  obtain ⟨_, hh⟩ := h.bucket_spec _ _ hb
  rw [hh]
  exact Int.natCast_nonneg _

/-- A node whose `heightInRecomputeHeap` is the sentinel is not in the
lookup. -/
theorem HeapOK.not_mem_of_unset {st : Store} {rh : RH} (h : HeapOK st rh) (id : Nat)
    (hu : (st id).heightInRecomputeHeap = heightUnset) : id ∉ rh.lookup := by
  intro hm
  obtain ⟨_, hrh⟩ := h.lookup_spec id hm
  have h0 := h.height_nonneg id hm
  rw [hu] at hrh
  rw [heightUnset] at hrh
  omega

/-! ## Scan and next-minimum-height specifications -/

theorem set_getD_self (hs : List (List Nat)) (i : Nat) : hs.set i (hs.getD i []) = hs := by
  induction hs generalizing i with
  | nil => rfl
  | cons x xs ih =>
    cases i with
    | zero => rfl
    | succ j => simpa [List.set] using ih j

theorem scanFirstNonEmpty_spec (hs : List (List Nat)) :
    ∀ (k : Nat) (x : Int), 0 ≤ x →
    (∀ i : Nat, hs.getD i [] ≠ [] → x ≤ (i : Int)) →
    (∃ i : Nat, hs.getD i [] ≠ [] ∧ (i : Int) < x + k) →
    0 ≤ scanFirstNonEmpty hs x k ∧
      hs.getD (scanFirstNonEmpty hs x k).toNat [] ≠ [] ∧
      ∀ i : Nat, hs.getD i [] ≠ [] → scanFirstNonEmpty hs x k ≤ (i : Int) := by
  intro k
  induction k with
  | zero =>
    intro x hx hlb hex
    obtain ⟨i, hi, hlt⟩ := hex
    have := hlb i hi
    omega
  | succ k ih =>
    intro x hx hlb hex
    unfold scanFirstNonEmpty
    by_cases hb : bucketAt hs x ≠ []
    · simp only [if_pos hb]
      have hbx : hs.getD x.toNat [] ≠ [] := by
        rw [bucketAt, if_neg (by omega)] at hb
        exact hb
      exact ⟨hx, hbx, hlb⟩
    · simp only [if_neg hb]
      push_neg at hb
      have hbx : hs.getD x.toNat [] = [] := by
        rw [bucketAt, if_neg (by omega)] at hb
        exact hb
      have hlb2 : ∀ i : Nat, hs.getD i [] ≠ [] → x + 1 ≤ (i : Int) := by
        intro i hi
        have h1 := hlb i hi
        have hne : (i : Int) ≠ x := by
          intro he
          have : i = x.toNat := by omega
          rw [this] at hi
          exact hi hbx
        omega
      have hex2 : ∃ i : Nat, hs.getD i [] ≠ [] ∧ (i : Int) < (x + 1) + k := by
        obtain ⟨i, hi, hlt⟩ := hex
        exact ⟨i, hi, by push_cast at hlt ⊢; omega⟩
      exact ih (x + 1) (by omega) hlb2 hex2

/-- Specification of `nextMinHeight` on a state whose non-empty
buckets all lie at or above `minHeight` and at or below `maxHeight`:
0 when the lookup is empty, otherwise the least non-empty bucket. -/
theorem nextMinHeight_spec (rh : RH)
    (h0 : 0 ≤ rh.minHeight)
    (hbd : ∀ i : Nat, rh.heights.getD i [] ≠ [] →
      rh.minHeight ≤ (i : Int) ∧ (i : Int) ≤ rh.maxHeight)
    (hex : rh.lookup ≠ [] → ∃ i : Nat, rh.heights.getD i [] ≠ []) :
    (rh.lookup = [] → nextMinHeight rh = 0) ∧
    (rh.lookup ≠ [] → 0 ≤ nextMinHeight rh ∧
      rh.heights.getD (nextMinHeight rh).toNat [] ≠ [] ∧
      ∀ i : Nat, rh.heights.getD i [] ≠ [] → nextMinHeight rh ≤ (i : Int)) := by
  constructor
  · intro he
    rw [nextMinHeight, if_pos]
    rw [he]
    rfl
  · intro hne
    have hlen : rh.lookup.length ≠ 0 := by
      intro hl
      exact hne (List.length_eq_zero.1 hl)
    rw [nextMinHeight, if_neg hlen]
    apply scanFirstNonEmpty_spec rh.heights _ rh.minHeight h0 (fun i hi => (hbd i hi).1)
    obtain ⟨i, hi⟩ := hex hne
    refine ⟨i, hi, ?_⟩
    obtain ⟨hlo, hhi⟩ := hbd i hi
    have : rh.minHeight ≤ rh.maxHeight := le_trans hlo hhi
    rw [Int.toNat_of_nonneg (by omega)]
    omega

/-! ## Fold characterizations -/

theorem foldl_unsetH_char (b : List Nat) (st : Store) (m : Nat) :
    (b.foldl (fun s id => setN s id { s id with heightInRecomputeHeap := heightUnset }) st) m
      = if m ∈ b then { st m with heightInRecomputeHeap := heightUnset } else st m := by
  induction b generalizing st with
  | nil => simp
  | cons a rest ih =>
    simp only [List.foldl_cons]
    rw [ih]
    by_cases hm : m ∈ rest
    · simp only [if_pos hm, if_pos (List.mem_cons_of_mem a hm)]
      by_cases hma : m = a
      · subst hma
        rw [setN_same]
      · rw [setN_ne _ _ _ _ hma]
    · simp only [if_neg hm]
      by_cases hma : m = a
      · subst hma
        rw [setN_same, if_pos (List.mem_cons_self m rest)]
      · rw [setN_ne _ _ _ _ hma, if_neg (by simp [hma, hm])]

theorem foldl_removeId_char (b : List Nat) (l : List Nat) (a : Nat) :
    a ∈ b.foldl (fun l id => removeId l id) l ↔ a ∈ l ∧ a ∉ b := by
  induction b generalizing l with
  | nil => simp
  | cons c rest ih =>
    simp only [List.foldl_cons]
    rw [ih, mem_removeId]
    constructor
    · rintro ⟨⟨h1, h2⟩, h3⟩
      exact ⟨h1, by simp [h2, h3]⟩
    · rintro ⟨h1, h2⟩
      simp only [List.mem_cons, not_or] at h2
      exact ⟨⟨h1, h2.1⟩, h2.2⟩

theorem foldl_removeId_nodup (b : List Nat) (l : List Nat) (h : l.Nodup) :
    (b.foldl (fun l id => removeId l id) l).Nodup := by
  induction b generalizing l with
  | nil => exact h
  | cons c rest ih =>
    simp only [List.foldl_cons]
    exact ih _ (removeId_nodup _ _ h)

/-! ## removeMinHeight specification -/

theorem removeMinHeight_spec (st : Store) (rh : RH) (H : HeapOK st rh)
    (hne : rh.lookup ≠ []) :
    (removeMinHeight st rh).2.2 = rh.heights.getD rh.minHeight.toNat [] ∧
    rh.heights.getD rh.minHeight.toNat [] ≠ [] ∧
    (rh.heights.getD rh.minHeight.toNat []).Nodup ∧
    (∀ x ∈ rh.heights.getD rh.minHeight.toNat [],
      x ∈ rh.lookup ∧ (st x).height = rh.minHeight) ∧
    (∀ m, (removeMinHeight st rh).1 m =
      if m ∈ rh.heights.getD rh.minHeight.toNat []
      then { st m with heightInRecomputeHeap := heightUnset } else st m) ∧
    (∀ a, a ∈ (removeMinHeight st rh).2.1.lookup ↔
      a ∈ rh.lookup ∧ a ∉ rh.heights.getD rh.minHeight.toNat []) ∧
    (∀ k ∈ (removeMinHeight st rh).2.1.lookup,
      rh.minHeight < ((removeMinHeight st rh).1 k).height) ∧
    HeapOK (removeMinHeight st rh).1 (removeMinHeight st rh).2.1 ∧
    MinAdvanced (removeMinHeight st rh).2.1 := by
  have hmin0 : 0 ≤ rh.minHeight := H.min_nonneg
  have hminIdx : ((rh.minHeight.toNat : Nat) : Int) = rh.minHeight := Int.toNat_of_nonneg hmin0
  have hb : rh.heights.getD rh.minHeight.toNat [] ≠ [] := H.min_bucket hne
  have hbEq : bucketAt rh.heights rh.minHeight = rh.heights.getD rh.minHeight.toNat [] := by
    rw [bucketAt, if_neg (by omega)]
  have hlen : rh.minHeight.toNat < rh.heights.length := by
    by_contra hc
    push_neg at hc
    exact hb (getDb_len_le _ _ hc)
  -- name the pieces
  set b := rh.heights.getD rh.minHeight.toNat [] with hbdef
  set st1 := b.foldl (fun s id => setN s id { s id with heightInRecomputeHeap := heightUnset }) st
    with hst1
  set lk := b.foldl (fun l id => removeId l id) rh.lookup with hlk
  have hsetb : setBucketAt rh.heights rh.minHeight [] = rh.heights.set rh.minHeight.toNat [] := by
    rw [setBucketAt, if_neg (by omega)]
  set rh1 : RH := { rh with lookup := lk, heights := setBucketAt rh.heights rh.minHeight [] }
    with hrh1
  have hq : removeMinHeight st rh
      = (st1, { rh1 with minHeight := nextMinHeight rh1 }, b) := by
    rw [removeMinHeight, hbEq, if_neg hb]
  -- bucket characterization of rh1
  have hbuck : ∀ i : Nat, rh1.heights.getD i []
      = if i = rh.minHeight.toNat then [] else rh.heights.getD i [] := by
    intro i
    rw [hrh1]
    simp only
    rw [hsetb]
    by_cases hi : i = rh.minHeight.toNat
    · subst hi
      rw [if_pos rfl, getDb_set_eq _ _ _ hlen]
    · rw [if_neg hi, getDb_set_ne _ _ _ _ (fun hc => hi hc.symm)]
  -- membership facts for the popped bucket
  have hbmem : ∀ x ∈ b, x ∈ rh.lookup ∧ (st x).height = rh.minHeight := by
    intro x hx
    obtain ⟨h1, h2⟩ := H.bucket_spec _ _ hx
    exact ⟨h1, by rw [h2, hminIdx]⟩
  -- store characterization
  have hstc : ∀ m, st1 m = if m ∈ b then { st m with heightInRecomputeHeap := heightUnset }
      else st m := fun m => foldl_unsetH_char b st m
  -- lookup characterization
  have hlkc : ∀ a, a ∈ lk ↔ a ∈ rh.lookup ∧ a ∉ b := fun a => foldl_removeId_char b rh.lookup a
  -- heights of remaining nodes are untouched and strictly larger
  have hremain : ∀ k ∈ lk, rh.minHeight < (st1 k).height ∧ st1 k = st k := by
    intro k hk
    obtain ⟨hkl, hkb⟩ := (hlkc k).1 hk
    have hkeq : st1 k = st k := by rw [hstc k, if_neg hkb]
    obtain ⟨hkbu, _⟩ := H.lookup_spec k hkl
    obtain ⟨_, hkh⟩ := H.bucket_spec _ _ hkbu
    have hht : ((st k).height).toNat ≠ rh.minHeight.toNat := by
      intro hc
      rw [hc] at hkbu
      exact hkb hkbu
    refine ⟨?_, hkeq⟩
    have hbd2 := H.bucket_bounds ((st k).height).toNat
      (by intro hc; rw [hc] at hkbu; exact (List.not_mem_nil k) hkbu)
    have h0k : (0 : Int) ≤ (st k).height := by rw [hkh]; exact Int.natCast_nonneg _
    rw [hkeq]
    omega
  -- nextMinHeight on rh1
  have hnm := nextMinHeight_spec rh1 (by rw [hrh1]; exact hmin0) ?_ ?_
  rotate_left
  · intro i hi
    rw [hbuck i] at hi
    by_cases hie : i = rh.minHeight.toNat
    · rw [if_pos hie] at hi
      exact absurd rfl hi
    · rw [if_neg hie] at hi
      exact H.bucket_bounds i hi
  · intro hne1
    obtain ⟨k, hk⟩ := List.exists_mem_of_ne_nil lk hne1
    obtain ⟨hkl, hkb⟩ := (hlkc k).1 hk
    obtain ⟨hkbu, _⟩ := H.lookup_spec k hkl
    refine ⟨((st k).height).toNat, ?_⟩
    rw [hbuck]
    have hht : ((st k).height).toNat ≠ rh.minHeight.toNat := by
      intro hc
      rw [hc] at hkbu
      exact hkb hkbu
    rw [if_neg hht]
    intro hc
    rw [hc] at hkbu
    exact (List.not_mem_nil k) hkbu
  -- now discharge all the conclusions
  rw [hq]
  simp only
  refine ⟨trivial, hb, H.bucket_nodup _, hbmem, hstc, hlkc, ?_, ?_, ?_⟩
  · intro k hk
    obtain ⟨h1, _⟩ := hremain k hk
    exact h1
  · -- HeapOK of the result
    refine ⟨foldl_removeId_nodup b rh.lookup H.lookup_nodup, ?_, ?_, ?_, ?_⟩
    · intro i hi
      have hieq : ({ rh1 with minHeight := nextMinHeight rh1 } : RH).heights = rh1.heights := rfl
      refine ⟨?_, ?_, ?_⟩
      · rw [hieq, hbuck i]
        by_cases hie : i = rh.minHeight.toNat
        · rw [if_pos hie]; exact List.nodup_nil
        · rw [if_neg hie]; exact H.bucket_nodup i
      · intro hnei
        rw [hieq, hbuck i] at hnei
        by_cases hie : i = rh.minHeight.toNat
        · rw [if_pos hie] at hnei; exact absurd rfl hnei
        · rw [if_neg hie] at hnei
          have hlkne : lk ≠ [] := by
            intro hc
            obtain ⟨x, hx⟩ := List.exists_mem_of_ne_nil _ hnei
            obtain ⟨hxl, hxh⟩ := H.bucket_spec i x hx
            have hxb : x ∉ b := by
              intro hxb
              obtain ⟨_, hxh2⟩ := hbmem x hxb
              rw [hxh2] at hxh
              exact hie (by omega)
            have : x ∈ lk := (hlkc x).2 ⟨hxl, hxb⟩
            rw [hc] at this
            exact (List.not_mem_nil x) this
          obtain ⟨hge0, hbne, hleast⟩ := hnm.2 hlkne
          constructor
          · exact hleast i (by rw [hbuck i, if_neg hie]; exact hnei)
          · exact (H.bucket_bounds i hnei).2
      · intro id hid
        rw [hieq, hbuck i] at hid
        by_cases hie : i = rh.minHeight.toNat
        · rw [if_pos hie] at hid
          exact absurd hid (List.not_mem_nil id)
        · rw [if_neg hie] at hid
          obtain ⟨hidl, hidh⟩ := H.bucket_spec i id hid
          have hidb : id ∉ b := by
            intro hidb
            obtain ⟨_, hidh2⟩ := hbmem id hidb
            rw [hidh2] at hidh
            exact hie (by omega)
          refine ⟨(hlkc id).2 ⟨hidl, hidb⟩, ?_⟩
          rw [hstc id, if_neg hidb]
          exact hidh
    · intro id hid
      obtain ⟨hidl, hidb⟩ := (hlkc id).1 hid
      have hideq : st1 id = st id := by rw [hstc id, if_neg hidb]
      obtain ⟨hidbu, hidrh⟩ := H.lookup_spec id hidl
      have hht : ((st id).height).toNat ≠ rh.minHeight.toNat := by
        intro hc
        rw [hc] at hidbu
        exact hidb hidbu
      constructor
      · show id ∈ rh1.heights.getD ((st1 id).height).toNat []
        rw [hideq, hbuck, if_neg hht]
        exact hidbu
      · rw [hideq]
        exact hidrh
    · -- 0 ≤ new minHeight
      show 0 ≤ nextMinHeight rh1
      by_cases hlkne : lk = []
      · rw [hnm.1 hlkne]
      · exact (hnm.2 hlkne).1
    · -- min bucket non-empty when lookup non-empty
      intro hlkne
      exact (hnm.2 hlkne).2.1
  · -- MinAdvanced
    constructor
    · intro he
      exact hnm.1 he
    · intro hne2
      obtain ⟨_, hbne, hleast⟩ := hnm.2 hne2
      exact ⟨hbne, hleast⟩

/-! ## addNode specifications -/

theorem addNode_present (st : Store) (rh : RH) (id : Nat) (H : HeapOK st rh)
    (hm : id ∈ rh.lookup) :
    (addNode st rh id).2.lookup = rh.lookup ∧
    (addNode st rh id).2.heights = rh.heights ∧
    (addNode st rh id).2.minHeight = rh.minHeight ∧
    (addNode st rh id).2.maxHeight = rh.maxHeight := by
  obtain ⟨hbu, hrh⟩ := H.lookup_spec id hm
  have h0 : 0 ≤ (st id).height := H.height_nonneg id hm
  have hIdxCast : ((((st id).height).toNat : Nat) : Int) = (st id).height :=
    Int.toNat_of_nonneg h0
  have hbne : rh.heights.getD ((st id).height).toNat [] ≠ [] := List.ne_nil_of_mem hbu
  have hbounds := H.bucket_bounds _ hbne
  have hlen : ((st id).height).toNat < rh.heights.length := by
    by_contra hc
    push_neg at hc
    exact hbne (getDb_len_le _ _ hc)
  have hlkne : ¬(rh.lookup.length = 0) := by
    intro hc
    rw [List.length_eq_zero] at hc
    rw [hc] at hm
    exact (List.not_mem_nil id) hm
  have h1 : maybeUpdateMinMaxHeights rh (st id).height = rh := by
    rw [maybeUpdateMinMaxHeights, if_neg hlkne]
    rw [if_neg (show ¬(rh.minHeight > (st id).height) by omega)]
    simp only
    rw [if_neg (show ¬(rh.maxHeight < (st id).height) by omega)]
  have h2 : maybeAddNewHeights rh (st id).height = rh := by
    rw [maybeAddNewHeights, if_neg]
    push_neg
    omega
  have hba : bucketAt rh.heights (st id).height
      = rh.heights.getD ((st id).height).toNat [] := by
    rw [bucketAt, if_neg (by omega)]
  have h3 : (addNode st rh id).2 = rh := by
    rw [addNode]
    simp only
    rw [h1, h2, hba, insertId_of_mem _ _ hbu, insertId_of_mem _ _ hm]
    rw [setBucketAt, if_neg (by omega), set_getD_self]
  rw [h3]
  exact ⟨rfl, rfl, rfl, rfl⟩

theorem addNode_fresh (st : Store) (rh : RH) (id : Nat) (H : HeapOK st rh)
    (hnm : id ∉ rh.lookup) (h0 : 0 ≤ (st id).height) :
    (addNode st rh id).2.lookup = rh.lookup ++ [id] ∧
    (∀ m, (addNode st rh id).1 m =
      if m = id then { st id with heightInRecomputeHeap := (st id).height } else st m) ∧
    (∀ i : Nat, (addNode st rh id).2.heights.getD i []
      = if i = ((st id).height).toNat
        then insertId (rh.heights.getD ((st id).height).toNat []) id
        else rh.heights.getD i []) ∧
    HeapOK (addNode st rh id).1 (addNode st rh id).2 := by
  have hIdxCast : ((((st id).height).toNat : Nat) : Int) = (st id).height :=
    Int.toNat_of_nonneg h0
  -- properties of the min/max update
  set rh1 := maybeUpdateMinMaxHeights rh (st id).height with hrh1
  have hP : rh1.heights = rh.heights ∧ rh1.lookup = rh.lookup ∧
      rh1.minHeight ≤ (st id).height ∧ (st id).height ≤ rh1.maxHeight ∧
      (∀ i : Nat, rh.heights.getD i [] ≠ [] →
        rh1.minHeight ≤ (i : Int) ∧ (i : Int) ≤ rh1.maxHeight) ∧
      0 ≤ rh1.minHeight ∧
      (rh1.minHeight = (st id).height ∨ (rh.lookup ≠ [] ∧ rh1.minHeight = rh.minHeight)) := by
    rw [hrh1, maybeUpdateMinMaxHeights]
    by_cases hL : rh.lookup.length = 0
    · rw [if_pos hL]
      have hLe : rh.lookup = [] := List.length_eq_zero.1 hL
      have hnob : ∀ i : Nat, rh.heights.getD i [] ≠ [] → False := by
        intro i hi
        obtain ⟨x, hx⟩ := List.exists_mem_of_ne_nil _ hi
        obtain ⟨hxl, _⟩ := H.bucket_spec i x hx
        rw [hLe] at hxl
        exact (List.not_mem_nil x) hxl
      exact ⟨rfl, rfl, le_refl _, le_refl _,
        fun i hi => absurd (hnob i hi) (fun h => h),
        h0, Or.inl rfl⟩
    · rw [if_neg hL]
      have hLe : rh.lookup ≠ [] := by
        intro hc
        exact hL (by rw [hc]; rfl)
      have hm0 := H.min_nonneg
      have hminmax : rh.minHeight ≤ rh.maxHeight := by
        have := H.min_bucket hLe
        have hb2 := H.bucket_bounds _ this
        have hcast : ((rh.minHeight.toNat : Nat) : Int) = rh.minHeight :=
          Int.toNat_of_nonneg hm0
        omega
      by_cases hmin : rh.minHeight > (st id).height
      · rw [if_pos hmin]
        dsimp only
        rw [if_neg (show ¬(rh.maxHeight < (st id).height) by omega)]
        refine ⟨rfl, rfl, le_refl _, by dsimp only; omega, ?_, by dsimp only; omega,
          Or.inl rfl⟩
        intro i hi
        have hb2 := H.bucket_bounds i hi
        dsimp only at hb2 ⊢
        omega
      · rw [if_neg hmin]
        by_cases hmax : rh.maxHeight < (st id).height
        · rw [if_pos hmax]
          refine ⟨rfl, rfl, by dsimp only; omega, by dsimp only; omega, ?_,
            by dsimp only; omega, Or.inr ⟨hLe, rfl⟩⟩
          intro i hi
          have hb2 := H.bucket_bounds i hi
          dsimp only at hb2 ⊢
          omega
        · rw [if_neg hmax]
          refine ⟨rfl, rfl, by omega, by omega, ?_, by omega, Or.inr ⟨hLe, rfl⟩⟩
          intro i hi
          exact H.bucket_bounds i hi
  obtain ⟨hP1, hP2, hP3, hP4, hP5, hP6, hP7⟩ := hP
  -- properties of the growth step
  set rh2 := maybeAddNewHeights rh1 (st id).height with hrh2
  have hQ : (∀ i : Nat, rh2.heights.getD i [] = rh.heights.getD i []) ∧
      ((st id).height).toNat < rh2.heights.length ∧
      rh2.minHeight = rh1.minHeight ∧ rh2.maxHeight = rh1.maxHeight ∧
      rh2.lookup = rh1.lookup := by
    rw [hrh2, maybeAddNewHeights]
    by_cases hg : (rh1.heights.length : Int) ≤ (st id).height
    · rw [if_pos hg]
      refine ⟨?_, ?_, rfl, rfl, rfl⟩
      · intro i
        simp only
        rw [hP1] at hg ⊢
        exact getDb_append_replicate _ _ _
      · simp only [List.length_append, List.length_replicate]
        rw [hP1] at hg ⊢
        omega
    · rw [if_neg hg]
      refine ⟨fun i => by rw [hP1], ?_, rfl, rfl, rfl⟩
      rw [hP1] at hg ⊢
      omega
  obtain ⟨hQ1, hQ2, hQ3, hQ4, hQ5⟩ := hQ
  have hba : bucketAt rh2.heights (st id).height
      = rh.heights.getD ((st id).height).toNat [] := by
    rw [bucketAt, if_neg (by omega), hQ1]
  have hEq : addNode st rh id
      = (setN st id { st id with heightInRecomputeHeap := (st id).height },
         { rh2 with
             heights := setBucketAt rh2.heights (st id).height
               (insertId (bucketAt rh2.heights (st id).height) id),
             lookup := insertId rh2.lookup id }) := rfl
  -- bucket characterization of the result
  have hbuck : ∀ i : Nat, (addNode st rh id).2.heights.getD i []
      = if i = ((st id).height).toNat
        then insertId (rh.heights.getD ((st id).height).toNat []) id
        else rh.heights.getD i [] := by
    intro i
    rw [hEq]
    simp only
    rw [setBucketAt, if_neg (by omega), hba]
    by_cases hi : i = ((st id).height).toNat
    · subst hi
      rw [if_pos rfl, getDb_set_eq _ _ _ hQ2]
    · rw [if_neg hi, getDb_set_ne _ _ _ _ (fun hc => hi hc.symm), hQ1]
  have hlkEq : (addNode st rh id).2.lookup = rh.lookup ++ [id] := by
    rw [hEq]
    simp only
    rw [hQ5, hP2, insertId_of_not_mem _ _ hnm]
  have hstEq : ∀ m, (addNode st rh id).1 m =
      if m = id then { st id with heightInRecomputeHeap := (st id).height } else st m := by
    intro m
    rw [hEq]
    rfl
  have hminEq : (addNode st rh id).2.minHeight = rh1.minHeight := by rw [hEq]; exact hQ3
  have hmaxEq : (addNode st rh id).2.maxHeight = rh1.maxHeight := by rw [hEq]; exact hQ4
  refine ⟨hlkEq, hstEq, hbuck, ?_⟩
  -- HeapOK of the result
  have hnewNodup : (rh.lookup ++ [id]).Nodup := by
    rw [List.nodup_append]
    refine ⟨H.lookup_nodup, List.nodup_singleton id, ?_⟩
    intro a ha hb
    simp only [List.mem_singleton] at hb
    subst hb
    exact hnm ha
  have hmemlk : ∀ a, a ∈ (addNode st rh id).2.lookup ↔ a ∈ rh.lookup ∨ a = id := by
    intro a
    rw [hlkEq, List.mem_append, List.mem_singleton]
  refine ⟨by rw [hlkEq]; exact hnewNodup, ?_, ?_, ?_, ?_⟩
  · -- bucket facts
    intro i _
    refine ⟨?_, ?_, ?_⟩
    · rw [hbuck i]
      by_cases hi : i = ((st id).height).toNat
      · rw [if_pos hi]
        exact insertId_nodup _ _ (H.bucket_nodup _)
      · rw [if_neg hi]
        exact H.bucket_nodup i
    · intro hnei
      rw [hbuck i] at hnei
      rw [hminEq, hmaxEq]
      by_cases hi : i = ((st id).height).toNat
      · subst hi
        rw [hIdxCast]
        exact ⟨hP3, hP4⟩
      · rw [if_neg hi] at hnei
        exact hP5 i hnei
    · intro x hx
      rw [hbuck i] at hx
      by_cases hi : i = ((st id).height).toNat
      · subst hi
        rw [if_pos rfl, mem_insertId] at hx
        rcases hx with hx | rfl
        · obtain ⟨hxl, hxh⟩ := H.bucket_spec _ _ hx
          have hxid : x ≠ id := fun hc => hnm (hc ▸ hxl)
          refine ⟨(hmemlk x).2 (Or.inl hxl), ?_⟩
          rw [hstEq x, if_neg hxid]
          exact hxh
        · refine ⟨(hmemlk x).2 (Or.inr rfl), ?_⟩
          rw [hstEq x, if_pos rfl, hIdxCast]
      · rw [if_neg hi] at hx
        obtain ⟨hxl, hxh⟩ := H.bucket_spec _ _ hx
        have hxid : x ≠ id := fun hc => hnm (hc ▸ hxl)
        refine ⟨(hmemlk x).2 (Or.inl hxl), ?_⟩
        rw [hstEq x, if_neg hxid]
        exact hxh
  · -- lookup facts
    intro x hx
    rcases (hmemlk x).1 hx with hxl | rfl
    · have hxid : x ≠ id := fun hc => hnm (hc ▸ hxl)
      obtain ⟨hxbu, hxrh⟩ := H.lookup_spec x hxl
      rw [hstEq x, if_neg hxid]
      constructor
      · rw [hbuck]
        by_cases hi : ((st x).height).toNat = ((st id).height).toNat
        · rw [if_pos hi]
          rw [hi] at hxbu
          exact mem_insertId_of_mem _ _ _ hxbu
        · rw [if_neg hi]
          exact hxbu
      · exact hxrh
    · rw [hstEq x, if_pos rfl]
      constructor
      · rw [hbuck]
        simp only [if_pos rfl]
        exact insertId_self_mem _ _
      · rfl
  · rw [hminEq]; exact hP6
  · intro _
    rw [hminEq]
    rcases hP7 with hP7 | ⟨hLne, hP7⟩
    · rw [hP7, hbuck, if_pos rfl]
      exact insertId_ne_nil _ _
    · rw [hP7, hbuck]
      by_cases hi : rh.minHeight.toNat = ((st id).height).toNat
      · rw [if_pos hi]
        exact insertId_ne_nil _ _
      · rw [if_neg hi]
        exact H.min_bucket hLne

/-! ## Minimum-height advance after removing the last minimum node -/

theorem removedSingleton_min_spec (st : Store) (rh : RH) (id : Nat) (H : HeapOK st rh)
    (hb : rh.heights.getD rh.minHeight.toNat [] = [id]) :
    MinAdvanced { { rh with lookup := removeId rh.lookup id,
                            heights := rh.heights.set rh.minHeight.toNat [] } with
                  minHeight := nextMinHeight
                    { rh with lookup := removeId rh.lookup id,
                              heights := rh.heights.set rh.minHeight.toNat [] } } := by
  have hmin0 : 0 ≤ rh.minHeight := H.min_nonneg
  have hbne : rh.heights.getD rh.minHeight.toNat [] ≠ [] := by
    rw [hb]
    exact List.cons_ne_nil id []
  have hlen : rh.minHeight.toNat < rh.heights.length := by
    by_contra hc
    push_neg at hc
    exact hbne (getDb_len_le _ _ hc)
  set rh1 : RH := { rh with lookup := removeId rh.lookup id,
                            heights := rh.heights.set rh.minHeight.toNat [] } with hrh1
  have hbuck : ∀ i : Nat, rh1.heights.getD i []
      = if i = rh.minHeight.toNat then [] else rh.heights.getD i [] := by
    intro i
    rw [hrh1]
    dsimp only
    by_cases hi : i = rh.minHeight.toNat
    · subst hi
      rw [if_pos rfl, getDb_set_eq _ _ _ hlen]
    · rw [if_neg hi, getDb_set_ne _ _ _ _ (fun hc => hi hc.symm)]
  have hnm := nextMinHeight_spec rh1 (by rw [hrh1]; exact hmin0) ?_ ?_
  rotate_left
  · intro i hi
    rw [hbuck i] at hi
    by_cases hie : i = rh.minHeight.toNat
    · rw [if_pos hie] at hi
      exact absurd rfl hi
    · rw [if_neg hie] at hi
      exact H.bucket_bounds i hi
  · intro hne1
    obtain ⟨k, hk⟩ := List.exists_mem_of_ne_nil _ hne1
    have hk2 : k ∈ removeId rh.lookup id := hk
    obtain ⟨hkl, hkid⟩ := (mem_removeId _ _ _).1 hk2
    obtain ⟨hkbu, _⟩ := H.lookup_spec k hkl
    have hht : ((st k).height).toNat ≠ rh.minHeight.toNat := by
      intro hc
      rw [hc, hb] at hkbu
      simp only [List.mem_singleton] at hkbu
      exact hkid hkbu
    refine ⟨((st k).height).toNat, ?_⟩
    rw [hbuck, if_neg hht]
    exact List.ne_nil_of_mem hkbu
  constructor
  · intro he
    exact hnm.1 he
  · intro hne2
    obtain ⟨_, hbne2, hleast⟩ := hnm.2 hne2
    exact ⟨hbne2, hleast⟩

/-! ## Claim C6 -/

/-- C6 counterexample: in the concrete one-node heap `c6RH` (single
node of height 2), popping the node empties the heap, and the code
sets `minHeight` to 0, not to the `heightUnset` sentinel as the claim
states. -/
theorem c6_counterexample :
    HeapOK c6Store c6RH ∧
    (removeMin c6Store c6RH).2.1.lookup = [] ∧
    (removeMin c6Store c6RH).2.1.minHeight = 0 ∧
    (removeMin c6Store c6RH).2.1.minHeight ≠ heightUnset := by
  refine ⟨by decide, by decide, by decide, ?_⟩
  rw [heightUnset]
  decide

/-- C6 (amended): when a removal (removeMinHeight, removeMin, or
remove) deletes the last element of the current minimum-height
bucket, `minHeight` is advanced to the next (least) non-empty bucket,
or to 0 — not the `heightUnset` sentinel — when the heap becomes
empty. -/
theorem c6_removal_advances_min_height :
    (∀ st rh, HeapOK st rh → rh.lookup ≠ [] →
      MinAdvanced (removeMinHeight st rh).2.1) ∧
    (∀ st rh id, HeapOK st rh → rh.heights.getD rh.minHeight.toNat [] = [id] →
      MinAdvanced (removeMin st rh).2.1) ∧
    (∀ st rh id, HeapOK st rh → rh.heights.getD rh.minHeight.toNat [] = [id] →
      MinAdvanced (removeNode st rh id).2) := by
  refine ⟨?_, ?_, ?_⟩
  · intro st rh H hne
    exact (removeMinHeight_spec st rh H hne).2.2.2.2.2.2.2.2
  · intro st rh id H hb
    have hmin0 : 0 ≤ rh.minHeight := H.min_nonneg
    have hbne : rh.heights.getD rh.minHeight.toNat [] ≠ [] := by
      rw [hb]; exact List.cons_ne_nil id []
    have hbounds := H.bucket_bounds _ hbne
    have hcast : ((rh.minHeight.toNat : Nat) : Int) = rh.minHeight := Int.toNat_of_nonneg hmin0
    have hf : (rh.maxHeight + 1 - rh.minHeight).toNat
        = (rh.maxHeight - rh.minHeight).toNat + 1 := by omega
    have hba : bucketAt rh.heights rh.minHeight = [id] := by
      rw [bucketAt, if_neg (by omega)]
      exact hb
    have hsetb : setBucketAt rh.heights rh.minHeight ([] : List Nat)
        = rh.heights.set rh.minHeight.toNat [] := by
      rw [setBucketAt, if_neg (by omega)]
    rw [removeMin, hf]
    show MinAdvanced (removeMinScan st rh rh.minHeight
      (Nat.succ ((rh.maxHeight - rh.minHeight).toNat))).2.1
    rw [removeMinScan]
    rw [hba]
    dsimp only
    rw [if_neg (show ¬(([] : List Nat) ≠ []) by simp)]
    rw [hsetb]
    exact removedSingleton_min_spec st rh id H hb
  · intro st rh id H hb
    have hmin0 : 0 ≤ rh.minHeight := H.min_nonneg
    have hidb : id ∈ rh.heights.getD rh.minHeight.toNat [] := by
      rw [hb]; exact List.mem_singleton.2 rfl
    obtain ⟨hidl, hidh⟩ := H.bucket_spec _ _ hidb
    obtain ⟨_, hidrh⟩ := H.lookup_spec _ hidl
    have hcast : ((rh.minHeight.toNat : Nat) : Int) = rh.minHeight := Int.toNat_of_nonneg hmin0
    have hh : (st id).heightInRecomputeHeap = rh.minHeight := by
      rw [hidrh, hidh, hcast]
    have hlen : rh.minHeight.toNat < rh.heights.length := by
      by_contra hc
      push_neg at hc
      rw [getDb_len_le _ _ hc] at hb
      exact (List.cons_ne_nil id []) hb.symm
    have hba : bucketAt rh.heights rh.minHeight = [id] := by
      rw [bucketAt, if_neg (by omega)]
      exact hb
    have hrem : removeId ([id] : List Nat) id = [] := by
      simp [removeId]
    have hsetb : setBucketAt rh.heights rh.minHeight ([] : List Nat)
        = rh.heights.set rh.minHeight.toNat [] := by
      rw [setBucketAt, if_neg (by omega)]
    rw [removeNode, if_pos hidl, removeItem, hh]
    dsimp only
    rw [hba, hrem, hsetb]
    have hlast : bucketAt (rh.heights.set rh.minHeight.toNat []) rh.minHeight = [] := by
      rw [bucketAt, if_neg (by omega), getDb_set_eq _ _ _ hlen]
    rw [if_pos]
    · exact removedSingleton_min_spec st rh id H hb
    · exact ⟨rfl, hlast⟩

/-- C6 witness: the amended theorem applied to the concrete one-node
heap. -/
theorem c6_removal_advances_min_height_witness :
    MinAdvanced (removeMinHeight c6Store c6RH).2.1 ∧
    MinAdvanced (removeMin c6Store c6RH).2.1 ∧
    MinAdvanced (removeNode c6Store c6RH 1).2 :=
  ⟨c6_removal_advances_min_height.1 c6Store c6RH (by decide) (by decide),
   c6_removal_advances_min_height.2.1 c6Store c6RH 1 (by decide) (by decide),
   c6_removal_advances_min_height.2.2 c6Store c6RH 1 (by decide) (by decide)⟩

/-! ## Claim C7 -/

/-- C7: `add` is idempotent when the node is already present — for
every heap state satisfying the representation invariant and every
node in the lookup, re-adding leaves the lookup table, the buckets,
and the min/max height markers unchanged. -/
theorem c7_add_idempotent : ∀ (st : Store) (rh : RH) (id : Nat),
    HeapOK st rh → id ∈ rh.lookup →
    (addNode st rh id).2.lookup = rh.lookup ∧
    (addNode st rh id).2.heights = rh.heights ∧
    (addNode st rh id).2.minHeight = rh.minHeight ∧
    (addNode st rh id).2.maxHeight = rh.maxHeight :=
  fun st rh id H hm => addNode_present st rh id H hm

/-- C7 witness: re-adding the present node 1 of the concrete heap. -/
theorem c7_add_idempotent_witness :
    (addNode c6Store c6RH 1).2.lookup = c6RH.lookup ∧
    (addNode c6Store c6RH 1).2.heights = c6RH.heights ∧
    (addNode c6Store c6RH 1).2.minHeight = c6RH.minHeight ∧
    (addNode c6Store c6RH 1).2.maxHeight = c6RH.maxHeight :=
  c7_add_idempotent c6Store c6RH 1 (by decide) (by decide)

/-! ## Claim C1 -/

/-- C1: calling `Stabilize` while the graph status is not
`NotStabilizing` returns `ErrAlreadyStabilizing` and leaves the graph
untouched — in particular no node is recomputed. -/
theorem c1_stabilize_already_stabilizing (fuel : Nat) (g : GGraph)
    (h : g.status ≠ StatusNotStabilizing) :
    Stabilize fuel g = (g, some GErr.alreadyStabilizing) ∧
    (∀ n, ((Stabilize fuel g).1.store n).numRecomputes = (g.store n).numRecomputes) ∧
    (Stabilize fuel g).1.recomputeLog = g.recomputeLog := by
  have hens : ensureNotStabilizing g = some GErr.alreadyStabilizing := by
    rw [ensureNotStabilizing, if_pos h]
  have hEq : Stabilize fuel g = (g, some GErr.alreadyStabilizing) := by
    rw [Stabilize, hens]
  exact ⟨hEq, fun n => by rw [hEq], by rw [hEq]⟩

/-- C1 witness: a graph mid-stabilization rejects a second call. -/
theorem c1_stabilize_already_stabilizing_witness :
    Stabilize 3 c5Graph = (c5Graph, some GErr.alreadyStabilizing) ∧
    (∀ n, ((Stabilize 3 c5Graph).1.store n).numRecomputes = (c5Graph.store n).numRecomputes) ∧
    (Stabilize 3 c5Graph).1.recomputeLog = c5Graph.recomputeLog :=
  c1_stabilize_already_stabilizing 3 c5Graph (by decide)

/-! ## Claim C2 -/

/-- C2: when a node's cutoff returns true, `recompute` stops for that
node: no error, `changedAt` untouched, the recompute heap untouched
(no child or observer enqueued), and no update handlers queued.
`recomputedAt` is still stamped (the stop happens after the counter
updates). -/
theorem c2_cutoff_stops_recompute (g : GGraph) (n : Nat)
    (hcut : (g.store n).cutoffFn = some (Except.ok true)) :
    (recompute g n).2 = none ∧
    ((recompute g n).1.store n).changedAt = (g.store n).changedAt ∧
    (∀ m, ((recompute g n).1.store m).changedAt = (g.store m).changedAt) ∧
    (recompute g n).1.rh = g.rh ∧
    (recompute g n).1.handleAfterStabilization = g.handleAfterStabilization := by
  have hmc : maybeCutoff (stampNode (g.store n) g.stabilizationNum) = Except.ok true := by
    rw [maybeCutoff]
    show (match (g.store n).cutoffFn with
      | none => Except.ok false
      | some r => r) = Except.ok true
    rw [hcut]
  have hEq : recompute g n = (recomputeStamp g n, none) := by
    simp only [recompute, hmc]
  have hstamp : ∀ m, (recomputeStamp g n).store m
      = if m = n then stampNode (g.store n) g.stabilizationNum
        else g.store m := by
    intro m
    rw [recomputeStamp]
    rfl
  rw [hEq]
  refine ⟨rfl, ?_, ?_, rfl, rfl⟩
  · rw [hstamp n, if_pos rfl]
    rfl
  · intro m
    rw [hstamp m]
    by_cases hm : m = n
    · subst hm
      rw [if_pos rfl]
      rfl
    · rw [if_neg hm]

/-- C2 witness: the cutoff node 1 of `c2Graph`. -/
theorem c2_cutoff_stops_recompute_witness :
    (recompute c2Graph 1).2 = none ∧
    ((recompute c2Graph 1).1.store 1).changedAt = (c2Graph.store 1).changedAt ∧
    (∀ m, ((recompute c2Graph 1).1.store m).changedAt = (c2Graph.store m).changedAt) ∧
    (recompute c2Graph 1).1.rh = c2Graph.rh ∧
    (recompute c2Graph 1).1.handleAfterStabilization = c2Graph.handleAfterStabilization :=
  c2_cutoff_stops_recompute c2Graph 1 rfl

/-! ## The stabilize-error path of recompute -/

/-- When the cutoff does not fire and the stabilize delegate fails,
`recompute` returns the error right after firing the node's `onError`
handlers. -/
theorem recompute_stabilize_error (g : GGraph) (n : Nat) (e : GErr)
    (hcut : (g.store n).cutoffFn = none ∨ (g.store n).cutoffFn = some (Except.ok false))
    (hst : (g.store n).stabilizeFn = some (some e)) :
    recompute g n = (fireErrorHandlers
      (stampChanged (recomputeStamp g n) n
        (bumpChanges (stampNode (g.store n) g.stabilizationNum)))
      n (g.store n).numOnError e, some e) := by
  have hmc : maybeCutoff (stampNode (g.store n) g.stabilizationNum) = Except.ok false := by
    rw [maybeCutoff]
    show (match (g.store n).cutoffFn with
      | none => Except.ok false
      | some r => r) = Except.ok false
    rcases hcut with h | h
    · rw [h]
    · rw [h]
  have hms : maybeStabilize (bumpChanges (stampNode (g.store n) g.stabilizationNum))
      = some e := by
    rw [maybeStabilize]
    show (match (g.store n).stabilizeFn with
      | none => none
      | some r => r) = some e
    rw [hst]
  simp only [recompute, hmc, hms]
  rfl

/-! ## Claim C10 -/

/-- C10: when the stabilize callback errors, the recompute and change
counters and `recomputedAt` are already updated (recompute is not
atomic on error); only the `changedAt` advance, the update-handler
queueing, and the re-enqueue of children/observers are skipped. -/
theorem c10_error_counters_updated (g : GGraph) (n : Nat) (e : GErr)
    (hcut : (g.store n).cutoffFn = none ∨ (g.store n).cutoffFn = some (Except.ok false))
    (hst : (g.store n).stabilizeFn = some (some e)) :
    (recompute g n).2 = some e ∧
    ((recompute g n).1.store n).numRecomputes = (g.store n).numRecomputes + 1 ∧
    ((recompute g n).1.store n).numChanges = (g.store n).numChanges + 1 ∧
    ((recompute g n).1.store n).recomputedAt = g.stabilizationNum ∧
    (recompute g n).1.numNodesRecomputed = g.numNodesRecomputed + 1 ∧
    (recompute g n).1.numNodesChanged = g.numNodesChanged + 1 ∧
    ((recompute g n).1.store n).changedAt = (g.store n).changedAt ∧
    (recompute g n).1.handleAfterStabilization = g.handleAfterStabilization ∧
    (recompute g n).1.rh = g.rh := by
  have hEq := recompute_stabilize_error g n e hcut hst
  rw [hEq]
  have hsn : (fireErrorHandlers
      (stampChanged (recomputeStamp g n) n
        (bumpChanges (stampNode (g.store n) g.stabilizationNum)))
      n (g.store n).numOnError e).store n
      = bumpChanges (stampNode (g.store n) g.stabilizationNum) := by
    show setN (recomputeStamp g n).store n _ n = _
    rw [setN_same]
  refine ⟨rfl, ?_, ?_, ?_, rfl, rfl, ?_, rfl, rfl⟩
  · rw [hsn]; rfl
  · rw [hsn]; rfl
  · rw [hsn]; rfl
  · rw [hsn]; rfl

/-- C10 witness: node 1 of `c10Graph` fails during stabilize; every
counter is already bumped. -/
theorem c10_error_counters_updated_witness :
    (recompute c10Graph 1).2 = some (GErr.user 3) ∧
    ((recompute c10Graph 1).1.store 1).numRecomputes = (c10Graph.store 1).numRecomputes + 1 ∧
    ((recompute c10Graph 1).1.store 1).numChanges = (c10Graph.store 1).numChanges + 1 ∧
    ((recompute c10Graph 1).1.store 1).recomputedAt = c10Graph.stabilizationNum ∧
    (recompute c10Graph 1).1.numNodesRecomputed = c10Graph.numNodesRecomputed + 1 ∧
    (recompute c10Graph 1).1.numNodesChanged = c10Graph.numNodesChanged + 1 ∧
    ((recompute c10Graph 1).1.store 1).changedAt = (c10Graph.store 1).changedAt ∧
    (recompute c10Graph 1).1.handleAfterStabilization = c10Graph.handleAfterStabilization ∧
    (recompute c10Graph 1).1.rh = c10Graph.rh :=
  c10_error_counters_updated c10Graph 1 (GErr.user 3) (Or.inl rfl) rfl

/-! ## Heap-lookup monotonicity through adds and pass end -/

theorem mumh_lookup (rh : RH) (h : Int) : (maybeUpdateMinMaxHeights rh h).lookup = rh.lookup := by
  rw [maybeUpdateMinMaxHeights]
  by_cases h1 : rh.lookup.length = 0
  · rw [if_pos h1]
  · rw [if_neg h1]
    dsimp only
    by_cases h2 : rh.minHeight > h
    · rw [if_pos h2]
      dsimp only
      by_cases h3 : rh.maxHeight < h
      · rw [if_pos h3]
      · rw [if_neg h3]
    · rw [if_neg h2]
      by_cases h3 : rh.maxHeight < h
      · rw [if_pos h3]
      · rw [if_neg h3]

theorem manh_lookup (rh : RH) (h : Int) : (maybeAddNewHeights rh h).lookup = rh.lookup := by
  rw [maybeAddNewHeights]
  by_cases h1 : (rh.heights.length : Int) ≤ h
  · rw [if_pos h1]
  · rw [if_neg h1]

theorem addNode_lookup (st : Store) (rh : RH) (id : Nat) :
    (addNode st rh id).2.lookup = insertId rh.lookup id := by
  show insertId (maybeAddNewHeights (maybeUpdateMinMaxHeights rh (st id).height)
    (st id).height).lookup id = insertId rh.lookup id
  rw [manh_lookup, mumh_lookup]

theorem addNode_lookup_mono (st : Store) (rh : RH) (id : Nat) (k : Nat)
    (h : k ∈ rh.lookup) : k ∈ (addNode st rh id).2.lookup := by
  rw [addNode_lookup]
  exact mem_insertId_of_mem _ _ _ h

theorem addNode_lookup_self (st : Store) (rh : RH) (id : Nat) :
    id ∈ (addNode st rh id).2.lookup := by
  rw [addNode_lookup]
  exact insertId_self_mem _ _

theorem addList_lookup_mono (ids : List Nat) (st : Store) (rh : RH) (k : Nat)
    (h : k ∈ rh.lookup) : k ∈ (addList st rh ids).2.lookup := by
  induction ids generalizing st rh with
  | nil => exact h
  | cons a rest ih =>
    show k ∈ (addList (addNode st rh a).1 (addNode st rh a).2 rest).2.lookup
    exact ih _ _ (addNode_lookup_mono st rh a k h)

theorem addList_lookup_of_mem (ids : List Nat) (st : Store) (rh : RH) (k : Nat)
    (h : k ∈ ids) : k ∈ (addList st rh ids).2.lookup := by
  induction ids generalizing st rh with
  | nil => exact absurd h (List.not_mem_nil k)
  | cons a rest ih =>
    show k ∈ (addList (addNode st rh a).1 (addNode st rh a).2 rest).2.lookup
    rcases List.mem_cons.1 h with rfl | hr
    · exact addList_lookup_mono rest _ _ k (addNode_lookup_self st rh k)
    · exact ih _ _ hr

theorem setStale_lookup_mono (g : GGraph) (id : Nat) (k : Nat)
    (h : k ∈ g.rh.lookup) : k ∈ (SetStaleG g id).rh.lookup := by
  rw [SetStaleG]
  dsimp only
  by_cases hc : (setN g.store id { g.store id with setAt := g.stabilizationNum } id).heightInRecomputeHeap = heightUnset
  · rw [if_pos hc]
    exact addNode_lookup_mono _ _ _ k h
  · rw [if_neg hc]
    exact h

theorem applySet_lookup_mono (l : List Nat) (g : GGraph) (k : Nat)
    (h : k ∈ g.rh.lookup) : k ∈ (l.foldl applySetDuringStep g).rh.lookup := by
  induction l generalizing g with
  | nil => exact h
  | cons a rest ih =>
    simp only [List.foldl_cons]
    apply ih
    rw [applySetDuringStep]
    exact setStale_lookup_mono _ a k h

theorem stabilizeEnd_lookup_mono (g : GGraph) (err : Option GErr) (k : Nat)
    (h : k ∈ g.rh.lookup) : k ∈ (stabilizeEnd g err).rh.lookup := by
  rw [stabilizeEnd, stabilizeEndHandleSetDuring]
  dsimp only
  exact applySet_lookup_mono _ _ k h

theorem stabilizeEnd_log (g : GGraph) (err : Option GErr) :
    (stabilizeEnd g err).recomputeLog = g.recomputeLog := by
  rw [stabilizeEnd, stabilizeEndHandleSetDuring]
  dsimp only
  have : ∀ (l : List Nat) (g2 : GGraph),
      (l.foldl applySetDuringStep g2).recomputeLog = g2.recomputeLog := by
    intro l
    induction l with
    | nil => intro g2; rfl
    | cons a rest ih =>
      intro g2
      simp only [List.foldl_cons]
      rw [ih]
      rw [applySetDuringStep, SetStaleG]
      dsimp only
      by_cases hc : (setN g2.store a { g2.store a with setAt := g2.stabilizationNum } a).heightInRecomputeHeap = heightUnset
      · rw [if_pos hc]
      · rw [if_neg hc]
  rw [this]
  rfl


/-! ## Claim C3 -/

/-- C3: a stabilize-callback error makes `recompute` fire the node's
`onError` handlers, queue no update handlers, and leave the recompute
heap untouched; at the pass level the error is surfaced by
`Stabilize` and every node still in the heap when the drain loop
aborts is still in the heap when `Stabilize` returns (the
pass-end steps only add), so a later pass resumes from them; and
update handlers fire only for queued entries. -/
theorem c3_stabilize_error_aborts :
    (∀ (g : GGraph) (n : Nat) (e : GErr),
      ((g.store n).cutoffFn = none ∨ (g.store n).cutoffFn = some (Except.ok false)) →
      (g.store n).stabilizeFn = some (some e) →
      (recompute g n).2 = some e ∧
      (recompute g n).1.firedErrors
        = g.firedErrors ++ List.replicate (g.store n).numOnError (n, e) ∧
      (recompute g n).1.handleAfterStabilization = g.handleAfterStabilization ∧
      (recompute g n).1.rh = g.rh) ∧
    (∀ g : GGraph, (stabilizeEndRunUpdateHandlers g).firedUpdates
      = g.firedUpdates ++ g.handleAfterStabilization) ∧
    (∀ (fuel : Nat) (g : GGraph), g.status = StatusNotStabilizing →
      (Stabilize fuel g).2 = (drainLoop fuel (stabilizeStart g) []).2.2 ∧
      ∀ k ∈ (drainLoop fuel (stabilizeStart g) []).1.rh.lookup,
        k ∈ (Stabilize fuel g).1.rh.lookup) := by
  refine ⟨?_, fun g => rfl, ?_⟩
  · intro g n e hcut hst
    have hEq := recompute_stabilize_error g n e hcut hst
    rw [hEq]
    exact ⟨rfl, rfl, rfl, rfl⟩
  · intro fuel g h
    have hens : ensureNotStabilizing g = none := by
      rw [ensureNotStabilizing, if_neg (by simp [h])]
    have hSt : Stabilize fuel g
        = (stabilizeEnd
            { (drainLoop fuel (stabilizeStart g) []).1 with
              store := (addList (drainLoop fuel (stabilizeStart g) []).1.store
                (drainLoop fuel (stabilizeStart g) []).1.rh
                (drainLoop fuel (stabilizeStart g) []).2.1).1,
              rh := (addList (drainLoop fuel (stabilizeStart g) []).1.store
                (drainLoop fuel (stabilizeStart g) []).1.rh
                (drainLoop fuel (stabilizeStart g) []).2.1).2 }
            (drainLoop fuel (stabilizeStart g) []).2.2,
          (drainLoop fuel (stabilizeStart g) []).2.2) := by
      simp only [Stabilize, hens]
    constructor
    · rw [hSt]
    · intro k hk
      rw [hSt]
      exact stabilizeEnd_lookup_mono _ (drainLoop fuel (stabilizeStart g) []).2.2 k
        (addList_lookup_mono _ _ _ k hk)

/-- C3 witness: node 1 of `c10Graph` fails; node 2 (height 1) was
still queued and survives into the post-pass heap. -/
theorem c3_stabilize_error_aborts_witness :
    ((recompute c10Graph 1).2 = some (GErr.user 3) ∧
      (recompute c10Graph 1).1.firedErrors
        = c10Graph.firedErrors ++ List.replicate 2 (1, GErr.user 3) ∧
      (recompute c10Graph 1).1.handleAfterStabilization
        = c10Graph.handleAfterStabilization ∧
      (recompute c10Graph 1).1.rh = c10Graph.rh) ∧
    (stabilizeEndRunUpdateHandlers c10Graph).firedUpdates
      = c10Graph.firedUpdates ++ c10Graph.handleAfterStabilization ∧
    ((Stabilize 4 c10Graph).2 = (drainLoop 4 (stabilizeStart c10Graph) []).2.2 ∧
      2 ∈ (Stabilize 4 c10Graph).1.rh.lookup) := by
  refine ⟨c3_stabilize_error_aborts.1 c10Graph 1 (GErr.user 3) (Or.inl rfl) rfl,
    c3_stabilize_error_aborts.2.1 c10Graph, ?_, ?_⟩
  · exact (c3_stabilize_error_aborts.2.2 4 c10Graph (by decide)).1
  · exact (c3_stabilize_error_aborts.2.2 4 c10Graph (by decide)).2 2 (by decide)

/-! ## Claim C5 -/

theorem addNode_store (st : Store) (rh : RH) (id : Nat) :
    (addNode st rh id).1 = setN st id { st id with heightInRecomputeHeap := (st id).height } :=
  rfl

theorem setStale_events (g : GGraph) (id : Nat) : (SetStaleG g id).events = g.events := by
  rw [SetStaleG]
  dsimp only
  by_cases hc : (setN g.store id { g.store id with setAt := g.stabilizationNum } id).heightInRecomputeHeap = heightUnset
  · rw [if_pos hc]
  · rw [if_neg hc]

theorem setStale_stabNum (g : GGraph) (id : Nat) :
    (SetStaleG g id).stabilizationNum = g.stabilizationNum := by
  rw [SetStaleG]
  dsimp only
  by_cases hc : (setN g.store id { g.store id with setAt := g.stabilizationNum } id).heightInRecomputeHeap = heightUnset
  · rw [if_pos hc]
  · rw [if_neg hc]

theorem setStale_store_setAt (g : GGraph) (id m : Nat) :
    ((SetStaleG g id).store m).setAt
      = (setN g.store id { g.store id with setAt := g.stabilizationNum } m).setAt := by
  rw [SetStaleG]
  dsimp only
  by_cases hc : (setN g.store id { g.store id with setAt := g.stabilizationNum } id).heightInRecomputeHeap = heightUnset
  · rw [if_pos hc]
    show ((addNode (setN g.store id { g.store id with setAt := g.stabilizationNum })
      g.rh id).1 m).setAt = _
    rw [addNode_store]
    by_cases hm : m = id
    · subst hm
      rw [setN_same]
    · rw [setN_ne _ _ _ _ hm]
  · rw [if_neg hc]

theorem setStale_setAt_self (g : GGraph) (id : Nat) :
    ((SetStaleG g id).store id).setAt = g.stabilizationNum := by
  rw [setStale_store_setAt, setN_same]

theorem setStale_setAt_other (g : GGraph) (id m : Nat) (h : m ≠ id) :
    ((SetStaleG g id).store m).setAt = (g.store m).setAt := by
  rw [setStale_store_setAt, setN_ne _ _ _ _ h]

theorem applyStep_events (g : GGraph) (id : Nat) :
    (applySetDuringStep g id).events = g.events ++ [GEvent.appliedSetDuring id] := by
  rw [applySetDuringStep, setStale_events]

theorem applyStep_stabNum (g : GGraph) (id : Nat) :
    (applySetDuringStep g id).stabilizationNum = g.stabilizationNum := by
  rw [applySetDuringStep, setStale_stabNum]

theorem applyStep_setAt_self (g : GGraph) (id : Nat) :
    ((applySetDuringStep g id).store id).setAt = g.stabilizationNum := by
  rw [applySetDuringStep, setStale_setAt_self]

theorem applyStep_setAt_other (g : GGraph) (id m : Nat) (h : m ≠ id) :
    ((applySetDuringStep g id).store m).setAt = (g.store m).setAt := by
  rw [applySetDuringStep, setStale_setAt_other _ _ _ h]

theorem applyFold_events (l : List Nat) (g : GGraph) :
    (l.foldl applySetDuringStep g).events = g.events ++ l.map GEvent.appliedSetDuring := by
  induction l generalizing g with
  | nil => simp
  | cons a rest ih =>
    simp only [List.foldl_cons, List.map_cons]
    rw [ih, applyStep_events]
    simp

theorem applyFold_stabNum (l : List Nat) (g : GGraph) :
    (l.foldl applySetDuringStep g).stabilizationNum = g.stabilizationNum := by
  induction l generalizing g with
  | nil => rfl
  | cons a rest ih =>
    simp only [List.foldl_cons]
    rw [ih, applyStep_stabNum]

theorem applyFold_setAt_preserved (l : List Nat) (g : GGraph) (m : Nat) (h : m ∉ l) :
    ((l.foldl applySetDuringStep g).store m).setAt = (g.store m).setAt := by
  induction l generalizing g with
  | nil => rfl
  | cons a rest ih =>
    simp only [List.foldl_cons]
    simp only [List.mem_cons, not_or] at h
    rw [ih _ h.2, applyStep_setAt_other _ _ _ h.1]

theorem applyFold_setAt (l : List Nat) (g : GGraph) (id : Nat) (h : id ∈ l) :
    ((l.foldl applySetDuringStep g).store id).setAt = g.stabilizationNum := by
  induction l generalizing g with
  | nil => exact absurd h (List.not_mem_nil id)
  | cons a rest ih =>
    simp only [List.foldl_cons]
    by_cases hr : id ∈ rest
    · rw [ih _ hr, applyStep_stabNum]
    · have hia : id = a := by
        rcases List.mem_cons.1 h with he | he
        · exact he
        · exact absurd he hr
      subst hia
      rw [applyFold_setAt_preserved rest _ id hr, applyStep_setAt_self]

/-- C5 counterexample: in `c5Graph` (stabilization number 5, variable
7 recorded in `setDuringStabilization`), `stabilizeEnd` increments the
stabilization number BEFORE applying `setDuringStabilization`: the
event log shows the increment first, and the applied variable's
`setAt` is stamped 6, not 5, refuting the claimed ordering. -/
theorem c5_counterexample :
    (stabilizeEnd c5Graph none).events
      = [GEvent.incStabNum, GEvent.appliedSetDuring 7] ∧
    ¬ applyBeforeInc ((stabilizeEnd c5Graph none).events) ∧
    c5Graph.stabilizationNum = 5 ∧
    ((stabilizeEnd c5Graph none).store 7).setAt = 6 := by decide

/-- C5 (amended): at the end of every stabilization pass the
stabilization number is incremented first and the
`setDuringStabilization` variables are applied after the increment, so
each applied variable's `setAt` is stamped with the incremented
number. -/
theorem c5_set_during_applied_after_increment (g : GGraph) (err : Option GErr) :
    (stabilizeEnd g err).events
      = g.events ++ [GEvent.incStabNum]
        ++ g.setDuringStabilization.map GEvent.appliedSetDuring ∧
    ∀ id ∈ g.setDuringStabilization,
      ((stabilizeEnd g err).store id).setAt = g.stabilizationNum + 1 := by
  constructor
  · rw [stabilizeEnd, stabilizeEndHandleSetDuring]
    dsimp only
    rw [applyFold_events]
    show (stabilizeEndRunUpdateHandlers g).events ++ [GEvent.incStabNum]
        ++ (stabilizeEndRunUpdateHandlers g).setDuringStabilization.map GEvent.appliedSetDuring
      = g.events ++ [GEvent.incStabNum] ++ g.setDuringStabilization.map GEvent.appliedSetDuring
    rfl
  · intro id hid
    rw [stabilizeEnd, stabilizeEndHandleSetDuring]
    dsimp only
    rw [applyFold_setAt ((stabilizeEndRunUpdateHandlers g).setDuringStabilization) _ id hid]
    rfl

/-- C5 witness: the amended theorem applied to `c5Graph` and its
recorded variable 7. -/
theorem c5_set_during_applied_after_increment_witness :
    (stabilizeEnd c5Graph none).events
      = c5Graph.events ++ [GEvent.incStabNum]
        ++ c5Graph.setDuringStabilization.map GEvent.appliedSetDuring ∧
    ((stabilizeEnd c5Graph none).store 7).setAt = c5Graph.stabilizationNum + 1 :=
  ⟨(c5_set_during_applied_after_increment c5Graph none).1,
   (c5_set_during_applied_after_increment c5Graph none).2 7 (by decide)⟩

/-! ## Claim C9 -/

/-- C9 (code bug): `DiffMapByKeys` links the added-keys node (2) to
the input (1) twice and never links the removed-keys node (3): after
the call the removed-keys node is not a child of the input and has no
parent, so it will not recompute when the input changes — contradicting
the function's documented contract and the sibling
`DiffMapByKeysRemoved`, which does link its output. -/
theorem c9_diff_map_by_keys_missing_link :
    2 ∈ ((diffMapByKeysLinks c9Store 1 2 3) 1).children ∧
    3 ∉ ((diffMapByKeysLinks c9Store 1 2 3) 1).children ∧
    ((diffMapByKeysLinks c9Store 1 2 3) 3).parents = [] ∧
    ((diffMapByKeysLinks c9Store 1 2 3) 2).parents = [1] := by decide

/-! ## Link/Unlink store characterizations -/

theorem unlinkStore_char (st : Store) (c old : Nat) (hco : c ≠ old) (m : Nat) :
    unlinkStore st c old m =
      if m = c then { st c with parents := removeId (st c).parents old }
      else if m = old then { st old with children := removeId (st old).children c }
      else st m := by
  rw [unlinkStore]
  by_cases hm1 : m = old
  · subst hm1
    rw [setN_same, setN_ne _ _ _ _ (fun h => hco h.symm)]
    rw [if_neg (fun h => hco h.symm), if_pos rfl]
  · rw [setN_ne _ _ _ _ hm1]
    by_cases hm2 : m = c
    · subst hm2
      rw [setN_same, if_pos rfl]
    · rw [setN_ne _ _ _ _ hm2, if_neg hm2, if_neg hm1]

theorem linkStore_char (st : Store) (c parent : Nat) (hcp : c ≠ parent) (m : Nat) :
    linkStore st c parent m =
      if m = c then { st c with parents := insertId (st c).parents parent }
      else if m = parent then { st parent with children := insertId (st parent).children c }
      else st m := by
  rw [linkStore]
  by_cases hm1 : m = c
  · subst hm1
    rw [setN_same, setN_ne _ _ _ _ hcp, if_pos rfl]
  · rw [setN_ne _ _ _ _ hm1]
    by_cases hm2 : m = parent
    · subst hm2
      rw [setN_same, if_neg hm1, if_pos rfl]
    · rw [setN_ne _ _ _ _ hm2, if_neg hm1, if_neg hm2]

/-! ## Unlink fold lemmas (bind unlinkOld) -/

theorem unlinkFold_frame (cs : List Nat) (old : Nat) (g : GGraph) (m : Nat)
    (hm : m ∉ cs) (hmo : m ≠ old) :
    ((cs.foldl (fun g c => UnlinkG g c old) g).store) m = g.store m := by
  induction cs generalizing g with
  | nil => rfl
  | cons a rest ih =>
    simp only [List.foldl_cons]
    simp only [List.mem_cons, not_or] at hm
    rw [ih _ hm.2]
    show unlinkStore g.store a old m = g.store m
    by_cases hao : a = old
    · subst hao
      rw [unlinkStore, setN_ne _ _ _ _ hmo, setN_ne _ _ _ _ hm.1]
    · rw [unlinkStore_char _ _ _ hao m, if_neg hm.1, if_neg hmo]

theorem unlinkFold_discovered (cs : List Nat) (old : Nat) (g : GGraph) :
    (cs.foldl (fun g c => UnlinkG g c old) g).discovered = g.discovered := by
  induction cs generalizing g with
  | nil => rfl
  | cons a rest ih =>
    simp only [List.foldl_cons]
    rw [ih]
    rfl

theorem unlinkFold_stabNum (cs : List Nat) (old : Nat) (g : GGraph) :
    (cs.foldl (fun g c => UnlinkG g c old) g).stabilizationNum = g.stabilizationNum := by
  induction cs generalizing g with
  | nil => rfl
  | cons a rest ih =>
    simp only [List.foldl_cons]
    rw [ih]
    rfl

theorem unlinkFold_rh (cs : List Nat) (old : Nat) (g : GGraph) :
    (cs.foldl (fun g c => UnlinkG g c old) g).rh = g.rh := by
  induction cs generalizing g with
  | nil => rfl
  | cons a rest ih =>
    simp only [List.foldl_cons]
    rw [ih]
    rfl

theorem unlinkFold_parents (cs : List Nat) (old : Nat) (g : GGraph)
    (hnd : cs.Nodup) (ho : old ∉ cs) :
    ∀ c ∈ cs, old ∉ (((cs.foldl (fun g c => UnlinkG g c old) g).store) c).parents := by
  induction cs generalizing g with
  | nil => intro c hc; exact absurd hc (List.not_mem_nil c)
  | cons a rest ih =>
    intro c hc
    simp only [List.foldl_cons]
    simp only [List.mem_cons, not_or] at ho
    have hnd2 := List.nodup_cons.1 hnd
    rcases List.mem_cons.1 hc with rfl | hcr
    · -- processed first, untouched afterwards
      rw [unlinkFold_frame rest old _ c hnd2.1 (fun h => ho.1 h.symm)]
      show old ∉ (unlinkStore g.store c old c).parents
      rw [unlinkStore_char _ _ _ (fun h => ho.1 h.symm) c, if_pos rfl]
      exact not_mem_removeId_self _ _
    · exact ih _ hnd2.2 ho.2 c hcr

theorem unlinkFold_children_mono (cs : List Nat) (old : Nat) (g : GGraph) (x : Nat)
    (ho : old ∉ cs) (hx : x ∉ ((g.store old).children)) :
    x ∉ (((cs.foldl (fun g c => UnlinkG g c old) g).store) old).children := by
  induction cs generalizing g with
  | nil => exact hx
  | cons a rest ih =>
    simp only [List.foldl_cons]
    simp only [List.mem_cons, not_or] at ho
    apply ih _ ho.2
    show x ∉ ((unlinkStore g.store a old old).children)
    rw [unlinkStore_char _ _ _ (fun h => ho.1 h.symm) old, if_neg ho.1, if_pos rfl]
    exact not_mem_removeId _ _ _ hx

theorem unlinkFold_children (cs : List Nat) (old : Nat) (g : GGraph)
    (hnd : cs.Nodup) (ho : old ∉ cs) :
    ∀ c ∈ cs, c ∉ (((cs.foldl (fun g c => UnlinkG g c old) g).store) old).children := by
  induction cs generalizing g with
  | nil => intro c hc; exact absurd hc (List.not_mem_nil c)
  | cons a rest ih =>
    intro c hc
    simp only [List.foldl_cons]
    simp only [List.mem_cons, not_or] at ho
    have hnd2 := List.nodup_cons.1 hnd
    rcases List.mem_cons.1 hc with rfl | hcr
    · apply unlinkFold_children_mono rest old _ c ho.2
      show c ∉ ((unlinkStore g.store c old old).children)
      rw [unlinkStore_char _ _ _ (fun h => ho.1 h.symm) old, if_neg ho.1, if_pos rfl]
      exact not_mem_removeId_self _ _
    · exact ih _ hnd2.2 ho.2 c hcr

/-! ## Link fold lemmas (bind linkNew) -/

theorem linkStep_store_other (g : GGraph) (hfuel : Nat) (newId c m : Nat)
    (hmc : m ≠ c) (hmn : m ≠ newId) :
    ((RecomputeHeightsG (LinkG g c newId) hfuel c).store) m = g.store m := by
  show setN (LinkG g c newId).store c _ m = g.store m
  rw [setN_ne _ _ _ _ hmc]
  show linkStore g.store c newId m = g.store m
  by_cases hcn : c = newId
  · subst hcn
    rw [linkStore, setN_ne _ _ _ _ hmc, setN_ne _ _ _ _ hmc]
  · rw [linkStore_char _ _ _ hcn m, if_neg hmc, if_neg hmn]

theorem linkStep_parents_self (g : GGraph) (hfuel : Nat) (newId c : Nat) (hcn : c ≠ newId) :
    (((RecomputeHeightsG (LinkG g c newId) hfuel c).store) c).parents
      = insertId ((g.store c).parents) newId := by
  show (setN (LinkG g c newId).store c _ c).parents = _
  rw [setN_same]
  show (linkStore g.store c newId c).parents = _
  rw [linkStore_char _ _ _ hcn c, if_pos rfl]

theorem linkStep_store_new (g : GGraph) (hfuel : Nat) (newId c : Nat) (hcn : c ≠ newId) :
    ((RecomputeHeightsG (LinkG g c newId) hfuel c).store) newId
      = { g.store newId with children := insertId ((g.store newId).children) c } := by
  show setN (LinkG g c newId).store c _ newId = _
  rw [setN_ne _ _ _ _ (fun h => hcn h.symm)]
  show linkStore g.store c newId newId = _
  rw [linkStore_char _ _ _ hcn newId, if_neg (fun h => hcn h.symm), if_pos rfl]

theorem linkStep_parents_nomem (g : GGraph) (hfuel : Nat) (old newId c m : Nat)
    (hon : old ≠ newId) (h : old ∉ ((g.store m).parents)) :
    old ∉ (((RecomputeHeightsG (LinkG g c newId) hfuel c).store) m).parents := by
  by_cases hmc : m = c
  · subst hmc
    show old ∉ ((setN (LinkG g m newId).store m _ m).parents)
    rw [setN_same]
    show old ∉ ((linkStore g.store m newId m).parents)
    by_cases hcn : m = newId
    · subst hcn
      rw [linkStore, setN_same]
      show old ∉ insertId ((setN g.store m _ m).parents) m
      rw [setN_same]
      intro hmem
      rcases (mem_insertId _ _ _).1 hmem with hmem | rfl
      · exact h hmem
      · exact hon rfl
    · rw [linkStore_char _ _ _ hcn m, if_pos rfl]
      intro hmem
      rcases (mem_insertId _ _ _).1 hmem with hmem | rfl
      · exact h hmem
      · exact hon rfl
  · by_cases hmn : m = newId
    · subst hmn
      by_cases hcn : c = m
      · exact absurd hcn.symm hmc
      · rw [linkStep_store_new g hfuel m c hcn]
        exact h
    · rw [linkStep_store_other g hfuel newId c m hmc hmn]
      exact h

theorem linkFold_frame (cs : List Nat) (newId : Nat) (hfuel : Nat) (g : GGraph) (m : Nat)
    (hm : m ∉ cs) (hmn : m ≠ newId) :
    ((cs.foldl (fun g c => RecomputeHeightsG (LinkG g c newId) hfuel c) g).store) m
      = g.store m := by
  induction cs generalizing g with
  | nil => rfl
  | cons a rest ih =>
    simp only [List.foldl_cons]
    simp only [List.mem_cons, not_or] at hm
    rw [ih _ hm.2]
    exact linkStep_store_other g hfuel newId a m hm.1 hmn

theorem linkFold_parents (cs : List Nat) (newId : Nat) (hfuel : Nat) (g : GGraph)
    (hnd : cs.Nodup) (hn : newId ∉ cs) :
    ∀ c ∈ cs, newId ∈
      (((cs.foldl (fun g c => RecomputeHeightsG (LinkG g c newId) hfuel c) g).store) c).parents := by
  induction cs generalizing g with
  | nil => intro c hc; exact absurd hc (List.not_mem_nil c)
  | cons a rest ih =>
    intro c hc
    simp only [List.foldl_cons]
    simp only [List.mem_cons, not_or] at hn
    have hnd2 := List.nodup_cons.1 hnd
    rcases List.mem_cons.1 hc with rfl | hcr
    · rw [linkFold_frame rest newId hfuel _ c hnd2.1 (fun h => hn.1 h.symm)]
      rw [linkStep_parents_self g hfuel newId c (fun h => hn.1 h.symm)]
      exact insertId_self_mem _ _
    · exact ih _ hnd2.2 hn.2 c hcr

theorem linkFold_children_mono (cs : List Nat) (newId : Nat) (hfuel : Nat) (g : GGraph)
    (x : Nat) (hn : newId ∉ cs) (hx : x ∈ ((g.store newId).children)) :
    x ∈ (((cs.foldl (fun g c => RecomputeHeightsG (LinkG g c newId) hfuel c) g).store)
      newId).children := by
  induction cs generalizing g with
  | nil => exact hx
  | cons a rest ih =>
    simp only [List.foldl_cons]
    simp only [List.mem_cons, not_or] at hn
    apply ih _ hn.2
    rw [linkStep_store_new g hfuel newId a (fun h => hn.1 h.symm)]
    exact mem_insertId_of_mem _ _ _ hx

theorem linkFold_children (cs : List Nat) (newId : Nat) (hfuel : Nat) (g : GGraph)
    (hnd : cs.Nodup) (hn : newId ∉ cs) :
    ∀ c ∈ cs, c ∈
      (((cs.foldl (fun g c => RecomputeHeightsG (LinkG g c newId) hfuel c) g).store)
        newId).children := by
  induction cs generalizing g with
  | nil => intro c hc; exact absurd hc (List.not_mem_nil c)
  | cons a rest ih =>
    intro c hc
    simp only [List.foldl_cons]
    simp only [List.mem_cons, not_or] at hn
    have hnd2 := List.nodup_cons.1 hnd
    rcases List.mem_cons.1 hc with rfl | hcr
    · apply linkFold_children_mono rest newId hfuel _ c hn.2
      rw [linkStep_store_new g hfuel newId c (fun h => hn.1 h.symm)]
      exact insertId_self_mem _ _
    · exact ih _ hnd2.2 hn.2 c hcr

theorem linkFold_parents_nomem (cs : List Nat) (old newId : Nat) (hfuel : Nat) (g : GGraph)
    (hon : old ≠ newId) (m : Nat) (h : old ∉ ((g.store m).parents)) :
    old ∉ (((cs.foldl (fun g c => RecomputeHeightsG (LinkG g c newId) hfuel c) g).store)
      m).parents := by
  induction cs generalizing g with
  | nil => exact h
  | cons a rest ih =>
    simp only [List.foldl_cons]
    exact ih _ (linkStep_parents_nomem g hfuel old newId a m hon h)

theorem linkFold_discovered (cs : List Nat) (newId : Nat) (hfuel : Nat) (g : GGraph) :
    (cs.foldl (fun g c => RecomputeHeightsG (LinkG g c newId) hfuel c) g).discovered
      = g.discovered := by
  induction cs generalizing g with
  | nil => rfl
  | cons a rest ih =>
    simp only [List.foldl_cons]
    rw [ih]
    rfl

theorem linkFold_stabNum (cs : List Nat) (newId : Nat) (hfuel : Nat) (g : GGraph) :
    (cs.foldl (fun g c => RecomputeHeightsG (LinkG g c newId) hfuel c) g).stabilizationNum
      = g.stabilizationNum := by
  induction cs generalizing g with
  | nil => rfl
  | cons a rest ih =>
    simp only [List.foldl_cons]
    rw [ih]
    rfl

theorem linkFold_rh (cs : List Nat) (newId : Nat) (hfuel : Nat) (g : GGraph) :
    (cs.foldl (fun g c => RecomputeHeightsG (LinkG g c newId) hfuel c) g).rh = g.rh := by
  induction cs generalizing g with
  | nil => rfl
  | cons a rest ih =>
    simp only [List.foldl_cons]
    rw [ih]
    rfl

/-! ## Discover/Undiscover fold lemmas -/

theorem undiscFold_store (os : List Nat) (old : Nat) (g : GGraph) :
    (os.foldl (fun g o => UndiscoverNodesG g o old) g).store = g.store := by
  induction os generalizing g with
  | nil => rfl
  | cons a rest ih =>
    simp only [List.foldl_cons]
    rw [ih]
    rfl

theorem undiscFold_stabNum (os : List Nat) (old : Nat) (g : GGraph) :
    (os.foldl (fun g o => UndiscoverNodesG g o old) g).stabilizationNum
      = g.stabilizationNum := by
  induction os generalizing g with
  | nil => rfl
  | cons a rest ih =>
    simp only [List.foldl_cons]
    rw [ih]
    rfl

theorem undiscFold_rh (os : List Nat) (old : Nat) (g : GGraph) :
    (os.foldl (fun g o => UndiscoverNodesG g o old) g).rh = g.rh := by
  induction os generalizing g with
  | nil => rfl
  | cons a rest ih =>
    simp only [List.foldl_cons]
    rw [ih]
    rfl

theorem undisc_discovered_sub (g : GGraph) (o old : Nat) (x : Nat × Nat)
    (h : x ∈ (UndiscoverNodesG g o old).discovered) : x ∈ g.discovered := by
  rw [UndiscoverNodesG] at h
  exact (List.mem_filter.1 h).1

theorem undiscFold_discovered_sub (os : List Nat) (old : Nat) (g : GGraph) (x : Nat × Nat)
    (h : x ∈ (os.foldl (fun g o => UndiscoverNodesG g o old) g).discovered) :
    x ∈ g.discovered := by
  induction os generalizing g with
  | nil => exact h
  | cons a rest ih =>
    simp only [List.foldl_cons] at h
    exact undisc_discovered_sub g a old x (ih _ h)

theorem undiscFold_not_mem (os : List Nat) (old : Nat) (g : GGraph) :
    ∀ o ∈ os, (o, old) ∉ (os.foldl (fun g o => UndiscoverNodesG g o old) g).discovered := by
  induction os generalizing g with
  | nil => intro o ho; exact absurd ho (List.not_mem_nil o)
  | cons a rest ih =>
    intro o ho
    simp only [List.foldl_cons]
    rcases List.mem_cons.1 ho with rfl | hor
    · intro hmem
      have hmem2 := undiscFold_discovered_sub rest old _ _ hmem
      rw [UndiscoverNodesG] at hmem2
      have := (List.mem_filter.1 hmem2).2
      simp at this
    · exact ih _ o hor

theorem discFold_store (os : List Nat) (newId : Nat) (g : GGraph) :
    (os.foldl (fun g o => DiscoverNodesG g o newId) g).store = g.store := by
  induction os generalizing g with
  | nil => rfl
  | cons a rest ih =>
    simp only [List.foldl_cons]
    rw [ih]
    rfl

theorem discFold_stabNum (os : List Nat) (newId : Nat) (g : GGraph) :
    (os.foldl (fun g o => DiscoverNodesG g o newId) g).stabilizationNum
      = g.stabilizationNum := by
  induction os generalizing g with
  | nil => rfl
  | cons a rest ih =>
    simp only [List.foldl_cons]
    rw [ih]
    rfl

theorem discFold_rh (os : List Nat) (newId : Nat) (g : GGraph) :
    (os.foldl (fun g o => DiscoverNodesG g o newId) g).rh = g.rh := by
  induction os generalizing g with
  | nil => rfl
  | cons a rest ih =>
    simp only [List.foldl_cons]
    rw [ih]
    rfl

theorem disc_discovered_mono (g : GGraph) (o newId : Nat) (x : Nat × Nat)
    (h : x ∈ g.discovered) : x ∈ (DiscoverNodesG g o newId).discovered := by
  rw [DiscoverNodesG]
  dsimp only
  by_cases hc : (o, newId) ∈ g.discovered
  · rw [if_pos hc]
    exact h
  · rw [if_neg hc]
    exact List.mem_append_left _ h

theorem disc_discovered_self (g : GGraph) (o newId : Nat) :
    (o, newId) ∈ (DiscoverNodesG g o newId).discovered := by
  rw [DiscoverNodesG]
  dsimp only
  by_cases hc : (o, newId) ∈ g.discovered
  · rw [if_pos hc]
    exact hc
  · rw [if_neg hc]
    exact List.mem_append_right _ (List.mem_singleton.2 rfl)

theorem discFold_discovered_mono (os : List Nat) (newId : Nat) (g : GGraph) (x : Nat × Nat)
    (h : x ∈ g.discovered) :
    x ∈ (os.foldl (fun g o => DiscoverNodesG g o newId) g).discovered := by
  induction os generalizing g with
  | nil => exact h
  | cons a rest ih =>
    simp only [List.foldl_cons]
    exact ih _ (disc_discovered_mono g a newId x h)

theorem discFold_mem (os : List Nat) (newId : Nat) (g : GGraph) :
    ∀ o ∈ os, (o, newId) ∈ (os.foldl (fun g o => DiscoverNodesG g o newId) g).discovered := by
  induction os generalizing g with
  | nil => intro o ho; exact absurd ho (List.not_mem_nil o)
  | cons a rest ih =>
    intro o ho
    simp only [List.foldl_cons]
    rcases List.mem_cons.1 ho with rfl | hor
    · exact discFold_discovered_mono rest newId _ _ (disc_discovered_self g o newId)
    · exact ih _ o hor

theorem disc_not_pair (g : GGraph) (o2 old newId : Nat) (hon : old ≠ newId) (o : Nat)
    (h : (o, old) ∉ g.discovered) : (o, old) ∉ (DiscoverNodesG g o2 newId).discovered := by
  rw [DiscoverNodesG]
  dsimp only
  by_cases hc : (o2, newId) ∈ g.discovered
  · rw [if_pos hc]
    exact h
  · rw [if_neg hc]
    intro hmem
    rcases List.mem_append.1 hmem with hmem | hmem
    · exact h hmem
    · rw [List.mem_singleton] at hmem
      have : old = newId := congrArg Prod.snd hmem
      exact hon this

theorem discFold_not_pair (os : List Nat) (old newId : Nat) (hon : old ≠ newId) (g : GGraph)
    (o : Nat) (h : (o, old) ∉ g.discovered) :
    (o, old) ∉ (os.foldl (fun g o => DiscoverNodesG g o newId) g).discovered := by
  induction os generalizing g with
  | nil => exact h
  | cons a rest ih =>
    simp only [List.foldl_cons]
    exact ih _ (disc_not_pair g a old newId hon o h)

/-! ## bindUnlinkOld and bindLinkNew specifications -/

theorem bindUnlinkOld_spec (g : GGraph) (b : BindRec) (oldId : Nat)
    (hndc : ((g.store b.nodeId).children).Nodup)
    (hocs : oldId ∉ ((g.store b.nodeId).children))
    (hbcs : b.nodeId ∉ ((g.store b.nodeId).children))
    (hbo : b.nodeId ≠ oldId) :
    (bindUnlinkOld g b oldId).2 = { b with bound := none } ∧
    (∀ c ∈ ((g.store b.nodeId).children),
      oldId ∉ (((bindUnlinkOld g b oldId).1.store) c).parents ∧
      c ∉ (((bindUnlinkOld g b oldId).1.store) oldId).children) ∧
    (∀ o ∈ ((g.store b.nodeId).observers),
      (o, oldId) ∉ (bindUnlinkOld g b oldId).1.discovered) ∧
    (∀ m, m ∉ ((g.store b.nodeId).children) → m ≠ oldId →
      (bindUnlinkOld g b oldId).1.store m = g.store m) ∧
    (bindUnlinkOld g b oldId).1.stabilizationNum = g.stabilizationNum ∧
    (bindUnlinkOld g b oldId).1.rh = g.rh := by
  set cs := (g.store b.nodeId).children with hcs
  set os := (g.store b.nodeId).observers with hos
  set gC := cs.foldl (fun g c => UnlinkG g c oldId) g with hgC
  have hframe : ∀ m, m ∉ cs → m ≠ oldId → gC.store m = g.store m := by
    intro m h1 h2
    exact unlinkFold_frame cs oldId g m h1 h2
  have hOS1 : (gC.store b.nodeId).observers = os := by
    rw [hframe b.nodeId hbcs hbo]
  have hEq : bindUnlinkOld g b oldId
      = (os.foldl (fun g o => UndiscoverNodesG g o oldId) gC, { b with bound := none }) := by
    rw [bindUnlinkOld]
    rw [← hcs, ← hgC, hOS1]
  rw [hEq]
  refine ⟨rfl, ?_, ?_, ?_, ?_, ?_⟩
  · intro c hc
    rw [undiscFold_store]
    exact ⟨unlinkFold_parents cs oldId g hndc hocs c hc,
      unlinkFold_children cs oldId g hndc hocs c hc⟩
  · intro o ho
    show (o, oldId) ∉ (os.foldl (fun g o => UndiscoverNodesG g o oldId) gC).discovered
    exact undiscFold_not_mem os oldId gC o ho
  · intro m h1 h2
    rw [undiscFold_store]
    exact hframe m h1 h2
  · rw [undiscFold_stabNum, hgC, unlinkFold_stabNum]
  · rw [undiscFold_rh, hgC, unlinkFold_rh]

theorem bindLinkNew_spec (g : GGraph) (hfuel : Nat) (b : BindRec) (newId : Nat)
    (hndc : ((g.store b.nodeId).children).Nodup)
    (hncs : newId ∉ ((g.store b.nodeId).children))
    (hbcs : b.nodeId ∉ ((g.store b.nodeId).children))
    (hbn : b.nodeId ≠ newId) :
    (bindLinkNew g hfuel b newId).2 = { b with bound := some newId } ∧
    (∀ c ∈ ((g.store b.nodeId).children),
      newId ∈ (((bindLinkNew g hfuel b newId).1.store) c).parents ∧
      c ∈ (((bindLinkNew g hfuel b newId).1.store) newId).children) ∧
    (∀ o ∈ ((g.store b.nodeId).observers),
      (o, newId) ∈ (bindLinkNew g hfuel b newId).1.discovered) ∧
    ((bindLinkNew g hfuel b newId).1.store newId).changedAt = g.stabilizationNum ∧
    newId ∈ (bindLinkNew g hfuel b newId).1.rh.lookup ∧
    (∀ old2, old2 ≠ newId → ∀ m, old2 ∉ ((g.store m).parents) →
      old2 ∉ (((bindLinkNew g hfuel b newId).1.store) m).parents) ∧
    (∀ old2, old2 ≠ newId → ∀ o, (o, old2) ∉ g.discovered →
      (o, old2) ∉ (bindLinkNew g hfuel b newId).1.discovered) ∧
    (∀ m, m ∉ ((g.store b.nodeId).children) → m ≠ newId →
      ∀ x, x ∉ ((g.store m).children) →
        x ∉ (((bindLinkNew g hfuel b newId).1.store) m).children) ∧
    (bindLinkNew g hfuel b newId).1.stabilizationNum = g.stabilizationNum := by
  set cs := (g.store b.nodeId).children with hcs
  set os := (g.store b.nodeId).observers with hos
  set gL := cs.foldl (fun g c => RecomputeHeightsG (LinkG g c newId) hfuel c) g with hgL
  have hframe : ∀ m, m ∉ cs → m ≠ newId → gL.store m = g.store m := by
    intro m h1 h2
    exact linkFold_frame cs newId hfuel g m h1 h2
  have hOS1 : (gL.store b.nodeId).observers = os := by
    rw [hframe b.nodeId hbcs hbn]
  set gD := os.foldl (fun g o => DiscoverNodesG g o newId) gL with hgD
  have hDstore : gD.store = gL.store := by
    rw [hgD, discFold_store]
  set nd3 := { gD.store newId with changedAt := gD.stabilizationNum } with hnd3
  set st3 := setN gD.store newId nd3 with hst3
  have hEq : bindLinkNew g hfuel b newId
      = ({ gD with store := (addNode st3 gD.rh newId).1,
                   rh := (addNode st3 gD.rh newId).2 },
         { b with bound := some newId }) := by
    rw [bindLinkNew]
    rw [← hcs, ← hgL, hOS1, ← hgD]
  have hstab : gD.stabilizationNum = g.stabilizationNum := by
    rw [hgD, discFold_stabNum, hgL, linkFold_stabNum]
  have hstoreNew : ∀ m, (addNode st3 gD.rh newId).1 m
      = if m = newId
        then { nd3 with heightInRecomputeHeap := nd3.height }
        else gD.store m := by
    intro m
    rw [addNode_store]
    by_cases hm : m = newId
    · subst hm
      rw [setN_same, if_pos rfl, hst3, setN_same]
    · rw [setN_ne _ _ _ _ hm, if_neg hm, hst3, setN_ne _ _ _ _ hm]
  rw [hEq]
  refine ⟨rfl, ?_, ?_, ?_, ?_, ?_, ?_, ?_, ?_⟩
  · intro c hc
    have hcn : c ≠ newId := fun h => hncs (h ▸ hc)
    constructor
    · show newId ∈ ((addNode st3 gD.rh newId).1 c).parents
      rw [hstoreNew c, if_neg hcn, hDstore]
      exact linkFold_parents cs newId hfuel g hndc hncs c hc
    · show c ∈ ((addNode st3 gD.rh newId).1 newId).children
      rw [hstoreNew newId, if_pos rfl]
      show c ∈ ((gD.store newId).children)
      rw [hDstore]
      exact linkFold_children cs newId hfuel g hndc hncs c hc
  · intro o ho
    show (o, newId) ∈ gD.discovered
    rw [hgD]
    exact discFold_mem os newId gL o ho
  · show ((addNode st3 gD.rh newId).1 newId).changedAt = g.stabilizationNum
    rw [hstoreNew newId, if_pos rfl]
    show gD.stabilizationNum = g.stabilizationNum
    exact hstab
  · show newId ∈ (addNode st3 gD.rh newId).2.lookup
    exact addNode_lookup_self _ _ _
  · intro old2 hon m h
    show old2 ∉ ((addNode st3 gD.rh newId).1 m).parents
    rw [hstoreNew m]
    by_cases hm : m = newId
    · rw [if_pos hm]
      show old2 ∉ ((gD.store newId).parents)
      rw [hDstore]
      exact linkFold_parents_nomem cs old2 newId hfuel g hon newId (hm ▸ h)
    · rw [if_neg hm, hDstore]
      exact linkFold_parents_nomem cs old2 newId hfuel g hon m h
  · intro old2 hon o h
    show (o, old2) ∉ gD.discovered
    rw [hgD]
    apply discFold_not_pair os old2 newId hon
    rw [hgL, linkFold_discovered]
    exact h
  · intro m h1 h2 x hx
    show x ∉ ((addNode st3 gD.rh newId).1 m).children
    rw [hstoreNew m, if_neg h2, hDstore, hframe m h1 h2]
    exact hx
  · show gD.stabilizationNum = g.stabilizationNum
    exact hstab

/-! ## Claim C4 -/

/-- C4: when the bind delegate returns a node different from the
currently bound one, every child of the bind node is unlinked from the
old bound node and linked to the new one, every observer of the bind
node undiscovers the old node and discovers the new one, the new
node's `changedAt` is stamped with the current stabilization number,
the new node is enqueued in the recompute heap, and the bind node's
`boundAt` is stamped with the current stabilization number. -/
theorem c4_bind_swap (g : GGraph) (hfuel : Nat) (b : BindRec) (oldId newId : Nat)
    (hb : b.bound = some oldId)
    (hf : b.fnResult = Except.ok (some newId))
    (hon : oldId ≠ newId)
    (hndc : ((g.store b.nodeId).children).Nodup)
    (hocs : oldId ∉ ((g.store b.nodeId).children))
    (hncs : newId ∉ ((g.store b.nodeId).children))
    (hbcs : b.nodeId ∉ ((g.store b.nodeId).children))
    (hbo : b.nodeId ≠ oldId)
    (hbn : b.nodeId ≠ newId) :
    (bindStep g hfuel b).2.2 = none ∧
    (bindStep g hfuel b).2.1.bound = some newId ∧
    (∀ c ∈ ((g.store b.nodeId).children),
      oldId ∉ (((bindStep g hfuel b).1.store) c).parents ∧
      newId ∈ (((bindStep g hfuel b).1.store) c).parents ∧
      c ∉ (((bindStep g hfuel b).1.store) oldId).children ∧
      c ∈ (((bindStep g hfuel b).1.store) newId).children) ∧
    (∀ o ∈ ((g.store b.nodeId).observers),
      (o, oldId) ∉ (bindStep g hfuel b).1.discovered ∧
      (o, newId) ∈ (bindStep g hfuel b).1.discovered) ∧
    (((bindStep g hfuel b).1.store) newId).changedAt = g.stabilizationNum ∧
    newId ∈ (bindStep g hfuel b).1.rh.lookup ∧
    (((bindStep g hfuel b).1.store) b.nodeId).boundAt = g.stabilizationNum := by
  set cs := (g.store b.nodeId).children with hcsdef
  set os := (g.store b.nodeId).observers with hosdef
  set p1 := bindUnlinkOld g b oldId with hp1
  set p2 := bindLinkNew p1.1 hfuel p1.2 newId with hp2
  have hstep : bindStep g hfuel b
      = (bindStampBoundAt p2.1 p2.2, p2.2, none) := by
    simp only [bindStep, hf, hb]
    rw [if_pos hon, hp2, hp1]
  obtain ⟨U1, U2, U3, U4, U5, U6⟩ := bindUnlinkOld_spec g b oldId hndc hocs hbcs hbo
  have hp12id : p1.2.nodeId = b.nodeId := by rw [hp1, U1]
  have hstoreB : p1.1.store b.nodeId = g.store b.nodeId := U4 b.nodeId hbcs hbo
  have hcs2 : (p1.1.store p1.2.nodeId).children = cs := by
    rw [hp12id, hstoreB]
  have hos2 : (p1.1.store p1.2.nodeId).observers = os := by
    rw [hp12id, hstoreB]
  obtain ⟨L1, L2, L3, L4, L5, L6, L7, L8, L9⟩ :=
    bindLinkNew_spec p1.1 hfuel p1.2 newId
      (by rw [hcs2]; exact hndc)
      (by rw [hcs2]; exact hncs)
      (by rw [hcs2, hp12id]; exact hbcs)
      (by rw [hp12id]; exact hbn)
  have hp22id : p2.2.nodeId = b.nodeId := by rw [hp2, L1, hp12id]
  have hgBo : ∀ m, m ≠ b.nodeId → (bindStampBoundAt p2.1 p2.2).store m = p2.1.store m := by
    intro m hm
    show setN p2.1.store p2.2.nodeId _ m = p2.1.store m
    rw [hp22id, setN_ne _ _ _ _ hm]
  have hgBb : ((bindStampBoundAt p2.1 p2.2).store b.nodeId).boundAt
      = p2.1.stabilizationNum := by
    show (setN p2.1.store p2.2.nodeId _ b.nodeId).boundAt = _
    rw [hp22id, setN_same]
  have hstab2 : p2.1.stabilizationNum = g.stabilizationNum := by
    rw [hp2, L9, hp1, U5]
  rw [hstep]
  refine ⟨rfl, ?_, ?_, ?_, ?_, ?_, ?_⟩
  · rw [hp2, L1, hp1, U1]
  · intro c hc
    have hcb : c ≠ b.nodeId := fun h => hbcs (h ▸ hc)
    have hcs2m : c ∈ (p1.1.store p1.2.nodeId).children := by rw [hcs2]; exact hc
    refine ⟨?_, ?_, ?_, ?_⟩
    · rw [hgBo c hcb]
      exact L6 oldId hon c (U2 c hc).1
    · rw [hgBo c hcb]
      exact (L2 c hcs2m).1
    · rw [hgBo oldId (fun h => hbo h.symm)]
      exact L8 oldId (by rw [hcs2]; exact hocs) hon c (U2 c hc).2
    · rw [hgBo newId (fun h => hbn h.symm)]
      exact (L2 c hcs2m).2
  · intro o ho
    have hos2m : o ∈ (p1.1.store p1.2.nodeId).observers := by rw [hos2]; exact ho
    constructor
    · show (o, oldId) ∉ p2.1.discovered
      exact L7 oldId hon o (U3 o ho)
    · show (o, newId) ∈ p2.1.discovered
      exact L3 o hos2m
  · rw [hgBo newId (fun h => hbn h.symm)]
    show ((bindLinkNew p1.1 hfuel p1.2 newId).1.store newId).changedAt = g.stabilizationNum
    rw [L4]
    exact U5
  · show newId ∈ p2.1.rh.lookup
    exact L5
  · rw [hgBb, hstab2]

/-- C4 witness: the concrete swap on `c4Graph` (bind node 10 rebinds
from node 3 to node 4; child 2, observer 7). -/
theorem c4_bind_swap_witness :
    (bindStep c4Graph 5 c4Bind).2.2 = none ∧
    (bindStep c4Graph 5 c4Bind).2.1.bound = some 4 ∧
    (3 ∉ (((bindStep c4Graph 5 c4Bind).1.store) 2).parents ∧
      4 ∈ (((bindStep c4Graph 5 c4Bind).1.store) 2).parents ∧
      2 ∉ (((bindStep c4Graph 5 c4Bind).1.store) 3).children ∧
      2 ∈ (((bindStep c4Graph 5 c4Bind).1.store) 4).children) ∧
    ((7, 3) ∉ (bindStep c4Graph 5 c4Bind).1.discovered ∧
      (7, 4) ∈ (bindStep c4Graph 5 c4Bind).1.discovered) ∧
    (((bindStep c4Graph 5 c4Bind).1.store) 4).changedAt = c4Graph.stabilizationNum ∧
    4 ∈ (bindStep c4Graph 5 c4Bind).1.rh.lookup ∧
    (((bindStep c4Graph 5 c4Bind).1.store) 10).boundAt = c4Graph.stabilizationNum := by
  have h := c4_bind_swap c4Graph 5 c4Bind 3 4 rfl rfl (by decide) (by decide) (by decide)
    (by decide) (by decide) (by decide) (by decide)
  exact ⟨h.1, h.2.1, h.2.2.1 2 (by decide), h.2.2.2.1 7 (by decide), h.2.2.2.2.1,
    h.2.2.2.2.2.1, h.2.2.2.2.2.2⟩

/-! ## Claim C8: structural invariants and congruence lemmas -/

theorem coreEq_refl (s : Store) : coreEq s s := fun _ => ⟨rfl, rfl, rfl, rfl⟩

theorem coreEq_trans {s1 s2 s3 : Store} (h1 : coreEq s1 s2) (h2 : coreEq s2 s3) :
    coreEq s1 s3 := by
  intro m
  obtain ⟨a1, b1, c1, d1⟩ := h1 m
  obtain ⟨a2, b2, c2, d2⟩ := h2 m
  exact ⟨a1.trans a2, b1.trans b2, c1.trans c2, d1.trans d2⟩

/-- The heap invariant only reads `height` and `heightInRecomputeHeap`
of the store: it transfers along store changes preserving both. -/
theorem HeapOK_congr {st st' : Store} {rh : RH}
    (hpres : ∀ m, (st' m).height = (st m).height ∧
      (st' m).heightInRecomputeHeap = (st m).heightInRecomputeHeap)
    (H : HeapOK st rh) : HeapOK st' rh := by
  obtain ⟨h1, h2, h3, h4, h5⟩ := H
  refine ⟨h1, ?_, ?_, h4, h5⟩
  · intro i hi
    obtain ⟨a, b, c⟩ := h2 i hi
    exact ⟨a, b, fun id hid => ⟨(c id hid).1, by rw [(hpres id).1]; exact (c id hid).2⟩⟩
  · intro id hid
    obtain ⟨a, b⟩ := h3 id hid
    exact ⟨by rw [(hpres id).1]; exact a, by rw [(hpres id).1, (hpres id).2]; exact b⟩

theorem EdgeOK_congr {g g' : GGraph} (hc : coreEq g'.store g.store)
    (hn : g'.nodes = g.nodes) (H : EdgeOK g) : EdgeOK g' := by
  intro id hid c hcm
  rw [hn] at hid
  obtain ⟨hh, hch, hob, _⟩ := hc id
  rw [hch, hob] at hcm
  rw [hh, (hc c).1]
  exact H id hid c hcm

theorem ClosedOK_congr {g g' : GGraph} (hc : coreEq g'.store g.store)
    (hn : g'.nodes = g.nodes)
    (hlk : ∀ k ∈ g'.rh.lookup, k ∈ g.nodes)
    (H : ClosedOK g) : ClosedOK g' := by
  obtain ⟨_, h0, h2⟩ := H
  refine ⟨by rw [hn]; exact hlk, ?_, ?_⟩
  · intro id hid
    rw [hn] at hid
    rw [(hc id).1]
    exact h0 id hid
  · intro id hid c hcm
    rw [hn] at hid ⊢
    obtain ⟨_, hch, hob, _⟩ := hc id
    rw [hch, hob] at hcm
    exact h2 id hid c hcm

theorem setN_setN (st : Store) (n : Nat) (a b : GNode) :
    setN (setN st n a) n b = setN st n b := by
  funext j
  by_cases hj : j = n <;> simp [setN, hj]

/-- A write-back that preserves the structural fields preserves
`coreEq`. -/
theorem setN_pres_core (st : Store) (n : Nat) (nd : GNode)
    (hh : nd.height = (st n).height) (hch : nd.children = (st n).children)
    (hob : nd.observers = (st n).observers) (hal : nd.always = (st n).always) :
    coreEq (setN st n nd) st := by
  intro m
  by_cases hm : m = n
  · subst hm; rw [setN_same]; exact ⟨hh, hch, hob, hal⟩
  · rw [setN_ne _ _ _ _ hm]; exact ⟨rfl, rfl, rfl, rfl⟩

/-- A write-back that preserves `height` and `heightInRecomputeHeap`
preserves the fields the heap invariant reads. -/
theorem setN_pres_heap (st : Store) (n : Nat) (nd : GNode)
    (hh : nd.height = (st n).height)
    (hr : nd.heightInRecomputeHeap = (st n).heightInRecomputeHeap) (m : Nat) :
    ((setN st n nd) m).height = (st m).height ∧
    ((setN st n nd) m).heightInRecomputeHeap = (st m).heightInRecomputeHeap := by
  by_cases hm : m = n
  · subst hm; rw [setN_same]; exact ⟨hh, hr⟩
  · rw [setN_ne _ _ _ _ hm]; exact ⟨rfl, rfl⟩

/-- The two node write-backs at the head of `recompute` (the
counter/`recomputedAt` stamp and the `numChanges` bump) preserve every
field the invariants read. -/
theorem stamp2_pres (st : Store) (n : Nat) (num : Nat) (m : Nat) :
    ((setN (setN st n (stampNode (st n) num)) n
        (bumpChanges (stampNode (st n) num))) m).height = (st m).height ∧
    ((setN (setN st n (stampNode (st n) num)) n
        (bumpChanges (stampNode (st n) num))) m).heightInRecomputeHeap
      = (st m).heightInRecomputeHeap ∧
    ((setN (setN st n (stampNode (st n) num)) n
        (bumpChanges (stampNode (st n) num))) m).children = (st m).children ∧
    ((setN (setN st n (stampNode (st n) num)) n
        (bumpChanges (stampNode (st n) num))) m).observers = (st m).observers ∧
    ((setN (setN st n (stampNode (st n) num)) n
        (bumpChanges (stampNode (st n) num))) m).always = (st m).always := by
  rw [setN_setN]
  by_cases hm : m = n
  · subst hm; rw [setN_same]; exact ⟨rfl, rfl, rfl, rfl, rfl⟩
  · rw [setN_ne _ _ _ _ hm]; exact ⟨rfl, rfl, rfl, rfl, rfl⟩

/-- Specification of the re-enqueue loop: given that every node
already queued sits strictly above `Hb` and every candidate does too
(with a non-negative height), the loop preserves the heap invariant,
keeps every queued node above `Hb`, only queues nodes that were queued
before or listed, and never touches the structural store fields or the
graph-level bookkeeping. -/
theorem enqueueStale_spec (ids : List Nat) : ∀ (g : GGraph) (Hb : Int),
    HeapOK g.store g.rh →
    (∀ k ∈ g.rh.lookup, Hb < (g.store k).height) →
    (∀ c ∈ ids, Hb < (g.store c).height ∧ 0 ≤ (g.store c).height) →
    HeapOK (enqueueStale g ids).store (enqueueStale g ids).rh ∧
    (∀ k ∈ (enqueueStale g ids).rh.lookup, Hb < ((enqueueStale g ids).store k).height) ∧
    (∀ k ∈ (enqueueStale g ids).rh.lookup, k ∈ g.rh.lookup ∨ k ∈ ids) ∧
    coreEq (enqueueStale g ids).store g.store ∧
    (enqueueStale g ids).nodes = g.nodes ∧
    (enqueueStale g ids).recomputeLog = g.recomputeLog ∧
    (enqueueStale g ids).stabilizationNum = g.stabilizationNum := by
  induction ids with
  | nil =>
    intro g Hb H hlk _
    exact ⟨H, hlk, fun k hk => Or.inl hk, coreEq_refl _, rfl, rfl, rfl⟩
  | cons c rest ih =>
    intro g Hb H hlk hids
    have hstep : enqueueStale g (c :: rest)
        = enqueueStale (if isNecessary (g.store c) && isStale g.store (g.store c)
            && decide ((g.store c).heightInRecomputeHeap = heightUnset)
          then { g with store := (addNode g.store g.rh c).1, rh := (addNode g.store g.rh c).2 }
          else g) rest := rfl
    by_cases hgd : (isNecessary (g.store c) && isStale g.store (g.store c)
        && decide ((g.store c).heightInRecomputeHeap = heightUnset)) = true
    · rw [hstep, if_pos hgd]
      have hparts := hgd
      simp only [Bool.and_eq_true, decide_eq_true_eq] at hparts
      have hunset : (g.store c).heightInRecomputeHeap = heightUnset := hparts.2
      have hnm : c ∉ g.rh.lookup := H.not_mem_of_unset c hunset
      have hc0 : 0 ≤ (g.store c).height := (hids c (List.mem_cons_self c rest)).2
      obtain ⟨haf1, haf2, _, haf4⟩ := addNode_fresh g.store g.rh c H hnm hc0
      have hcore1 : coreEq (addNode g.store g.rh c).1 g.store := by
        intro m
        rw [haf2 m]
        by_cases hm : m = c
        · rw [if_pos hm, hm]; exact ⟨rfl, rfl, rfl, rfl⟩
        · rw [if_neg hm]; exact ⟨rfl, rfl, rfl, rfl⟩
      have hlk1 : ∀ k ∈ (addNode g.store g.rh c).2.lookup,
          Hb < ((addNode g.store g.rh c).1 k).height := by
        intro k hk
        rw [(hcore1 k).1]
        have hk2 : k ∈ g.rh.lookup ++ [c] := by rw [← haf1]; exact hk
        rcases List.mem_append.1 hk2 with h | h
        · exact hlk k h
        · have hkc : k = c := by simpa using h
          rw [hkc]
          exact (hids c (List.mem_cons_self c rest)).1
      have hids1 : ∀ c2 ∈ rest, Hb < ((addNode g.store g.rh c).1 c2).height ∧
          0 ≤ ((addNode g.store g.rh c).1 c2).height := by
        intro c2 hc2
        rw [(hcore1 c2).1]
        exact hids c2 (List.mem_cons_of_mem c hc2)
      obtain ⟨ihH, ihB, ihO, ihC, ihN, ihL, ihS⟩ :=
        ih { g with store := (addNode g.store g.rh c).1, rh := (addNode g.store g.rh c).2 }
          Hb haf4 hlk1 hids1
      refine ⟨ihH, ihB, ?_, coreEq_trans ihC hcore1, ihN, ihL, ihS⟩
      intro k hk
      rcases ihO k hk with h | h
      · have hk2 : k ∈ g.rh.lookup ++ [c] := by rw [← haf1]; exact h
        rcases List.mem_append.1 hk2 with h2 | h2
        · exact Or.inl h2
        · have hkc : k = c := by simpa using h2
          exact Or.inr (by rw [hkc]; exact List.mem_cons_self c rest)
      · exact Or.inr (List.mem_cons_of_mem c h)
    · rw [hstep, if_neg hgd]
      obtain ⟨ihH, ihB, ihO, ihC, ihN, ihL, ihS⟩ := ih g Hb H hlk
        (fun c2 hc2 => hids c2 (List.mem_cons_of_mem c hc2))
      exact ⟨ihH, ihB, fun k hk => (ihO k hk).imp_right (List.mem_cons_of_mem c),
        ihC, ihN, ihL, ihS⟩

/-- Specification of the success tail of `recompute`: stamping
`changedAt` and queueing update handlers leave the heap and the
structural fields alone, and the two re-enqueue loops only add
children and observers of the recomputed node, all of which sit
strictly above `Hb`. -/
theorem recomputeFinish_spec (g2 : GGraph) (n : Nat) (nn2 : GNode) (Hb : Int)
    (hh : nn2.height = (g2.store n).height)
    (hch : nn2.children = (g2.store n).children)
    (hob : nn2.observers = (g2.store n).observers)
    (hal : nn2.always = (g2.store n).always)
    (hhr : nn2.heightInRecomputeHeap = (g2.store n).heightInRecomputeHeap)
    (hH : HeapOK g2.store g2.rh)
    (hlk : ∀ k ∈ g2.rh.lookup, Hb < (g2.store k).height)
    (hedge : ∀ c ∈ nn2.children ++ nn2.observers,
      Hb < (g2.store c).height ∧ 0 ≤ (g2.store c).height) :
    (recomputeFinish g2 n nn2).recomputeLog = g2.recomputeLog ∧
    (recomputeFinish g2 n nn2).nodes = g2.nodes ∧
    (recomputeFinish g2 n nn2).stabilizationNum = g2.stabilizationNum ∧
    coreEq (recomputeFinish g2 n nn2).store g2.store ∧
    HeapOK (recomputeFinish g2 n nn2).store (recomputeFinish g2 n nn2).rh ∧
    (∀ k ∈ (recomputeFinish g2 n nn2).rh.lookup,
      Hb < ((recomputeFinish g2 n nn2).store k).height) ∧
    (∀ k ∈ (recomputeFinish g2 n nn2).rh.lookup,
      k ∈ g2.rh.lookup ∨ k ∈ nn2.children ++ nn2.observers) := by
  set nn3 : GNode := { nn2 with changedAt := g2.stabilizationNum } with hnn3
  set g3 : GGraph := { g2 with store := setN g2.store n nn3 } with hg3
  set g4 : GGraph := if 0 < nn3.numOnUpdate
    then { g3 with handleAfterStabilization :=
            g3.handleAfterStabilization ++ [(n, nn3.numOnUpdate)] }
    else g3 with hg4
  have hR : recomputeFinish g2 n nn2
      = enqueueStale (enqueueStale g4 nn3.children) nn3.observers := rfl
  rw [hR]
  have h3h : nn3.height = (g2.store n).height := hh
  have h3r : nn3.heightInRecomputeHeap = (g2.store n).heightInRecomputeHeap := hhr
  have h3ch : nn3.children = (g2.store n).children := hch
  have h3ob : nn3.observers = (g2.store n).observers := hob
  have h3al : nn3.always = (g2.store n).always := hal
  have hg4c : g4.store = setN g2.store n nn3 ∧ g4.rh = g2.rh ∧ g4.nodes = g2.nodes ∧
      g4.recomputeLog = g2.recomputeLog ∧ g4.stabilizationNum = g2.stabilizationNum := by
    rw [hg4]
    by_cases h : 0 < nn3.numOnUpdate
    · rw [if_pos h]; exact ⟨rfl, rfl, rfl, rfl, rfl⟩
    · rw [if_neg h]; exact ⟨rfl, rfl, rfl, rfl, rfl⟩
  have hH4 : HeapOK g4.store g4.rh := by
    rw [hg4c.1, hg4c.2.1]
    exact HeapOK_congr (setN_pres_heap g2.store n nn3 h3h h3r) hH
  have hcore4 : coreEq g4.store g2.store := by
    rw [hg4c.1]
    exact setN_pres_core g2.store n nn3 h3h h3ch h3ob h3al
  have hlk4 : ∀ k ∈ g4.rh.lookup, Hb < (g4.store k).height := by
    intro k hk
    rw [hg4c.2.1] at hk
    rw [(hcore4 k).1]
    exact hlk k hk
  have hids4c : ∀ c ∈ nn3.children, Hb < (g4.store c).height ∧ 0 ≤ (g4.store c).height := by
    intro c hc
    rw [(hcore4 c).1]
    exact hedge c (List.mem_append_left _ hc)
  obtain ⟨e1H, e1B, e1O, e1C, e1N, e1L, e1S⟩ :=
    enqueueStale_spec nn3.children g4 Hb hH4 hlk4 hids4c
  have hids4o : ∀ c ∈ nn3.observers,
      Hb < ((enqueueStale g4 nn3.children).store c).height ∧
      0 ≤ ((enqueueStale g4 nn3.children).store c).height := by
    intro c hc
    rw [(e1C c).1, (hcore4 c).1]
    exact hedge c (List.mem_append_right _ hc)
  obtain ⟨e2H, e2B, e2O, e2C, e2N, e2L, e2S⟩ :=
    enqueueStale_spec nn3.observers (enqueueStale g4 nn3.children) Hb e1H e1B hids4o
  refine ⟨by rw [e2L, e1L]; exact hg4c.2.2.2.1,
    by rw [e2N, e1N]; exact hg4c.2.2.1,
    by rw [e2S, e1S]; exact hg4c.2.2.2.2,
    coreEq_trans e2C (coreEq_trans e1C hcore4), e2H, e2B, ?_⟩
  intro k hk
  rcases e2O k hk with h | h
  · rcases e1O k h with h2 | h2
    · rw [hg4c.2.1] at h2
      exact Or.inl h2
    · exact Or.inr (List.mem_append_left _ h2)
  · exact Or.inr (List.mem_append_right _ h)

/-- Specification of `recompute` for the drain-loop invariant: the
node is appended to the recompute log exactly once, the heap/edge/
closure invariants are preserved, the structural store fields and the
graph bookkeeping are untouched, and every node queued afterwards sits
strictly above the recomputed node's height. -/
theorem recompute_spec (g : GGraph) (n : Nat)
    (hH : HeapOK g.store g.rh) (hE : EdgeOK g) (hC : ClosedOK g)
    (hn : n ∈ g.nodes)
    (hlk : ∀ k ∈ g.rh.lookup, (g.store n).height < (g.store k).height) :
    (recompute g n).1.recomputeLog = g.recomputeLog ++ [n] ∧
    HeapOK (recompute g n).1.store (recompute g n).1.rh ∧
    EdgeOK (recompute g n).1 ∧ ClosedOK (recompute g n).1 ∧
    coreEq (recompute g n).1.store g.store ∧
    (recompute g n).1.nodes = g.nodes ∧
    (recompute g n).1.stabilizationNum = g.stabilizationNum ∧
    (∀ k ∈ (recompute g n).1.rh.lookup,
      (g.store n).height < ((recompute g n).1.store k).height) := by
  have hps := setN_pres_heap g.store n (stampNode (g.store n) g.stabilizationNum) rfl rfl
  have hpc := setN_pres_core g.store n (stampNode (g.store n) g.stabilizationNum) rfl rfl rfl rfl
  have hH1 : HeapOK (setN g.store n (stampNode (g.store n) g.stabilizationNum)) g.rh :=
    HeapOK_congr hps hH
  have hB1 : ∀ k ∈ g.rh.lookup,
      (g.store n).height < ((setN g.store n (stampNode (g.store n) g.stabilizationNum)) k).height := by
    intro k hk
    rw [(hps k).1]
    exact hlk k hk
  cases hmc : maybeCutoff (stampNode (g.store n) g.stabilizationNum) with
  | error e =>
    have hq : recompute g n = (fireErrorHandlers (recomputeStamp g n) n
        (stampNode (g.store n) g.stabilizationNum).numOnError e, some e) := by
      simp only [recompute, hmc]
    rw [hq]
    exact ⟨rfl, hH1, EdgeOK_congr hpc rfl hE, ClosedOK_congr hpc rfl hC.1 hC,
      hpc, rfl, rfl, hB1⟩
  | ok b =>
    cases b with
    | true =>
      have hq : recompute g n = (recomputeStamp g n, none) := by
        simp only [recompute, hmc]
      rw [hq]
      exact ⟨rfl, hH1, EdgeOK_congr hpc rfl hE, ClosedOK_congr hpc rfl hC.1 hC,
        hpc, rfl, rfl, hB1⟩
    | false =>
      have hps2 := stamp2_pres g.store n g.stabilizationNum
      have hpc2 : coreEq (setN (setN g.store n (stampNode (g.store n) g.stabilizationNum)) n
          (bumpChanges (stampNode (g.store n) g.stabilizationNum))) g.store :=
        fun m => ⟨(hps2 m).1, (hps2 m).2.2.1, (hps2 m).2.2.2.1, (hps2 m).2.2.2.2⟩
      have hH2 : HeapOK (setN (setN g.store n (stampNode (g.store n) g.stabilizationNum)) n
          (bumpChanges (stampNode (g.store n) g.stabilizationNum))) g.rh :=
        HeapOK_congr (fun m => ⟨(hps2 m).1, (hps2 m).2.1⟩) hH
      have hB2 : ∀ k ∈ g.rh.lookup, (g.store n).height
          < ((setN (setN g.store n (stampNode (g.store n) g.stabilizationNum)) n
              (bumpChanges (stampNode (g.store n) g.stabilizationNum))) k).height := by
        intro k hk
        rw [(hps2 k).1]
        exact hlk k hk
      cases hms : maybeStabilize (bumpChanges (stampNode (g.store n) g.stabilizationNum)) with
      | some e =>
        have hq : recompute g n = (fireErrorHandlers
            (stampChanged (recomputeStamp g n) n
              (bumpChanges (stampNode (g.store n) g.stabilizationNum)))
            n (bumpChanges (stampNode (g.store n) g.stabilizationNum)).numOnError e,
            some e) := by
          simp only [recompute, hmc, hms]
        rw [hq]
        exact ⟨rfl, hH2, EdgeOK_congr hpc2 rfl hE, ClosedOK_congr hpc2 rfl hC.1 hC,
          hpc2, rfl, rfl, hB2⟩
      | none =>
        have hq : recompute g n = (recomputeFinish
            (stampChanged (recomputeStamp g n) n
              (bumpChanges (stampNode (g.store n) g.stabilizationNum)))
            n (bumpChanges (stampNode (g.store n) g.stabilizationNum)), none) := by
          simp only [recompute, hmc, hms]
        rw [hq]
        have hsn : (stampChanged (recomputeStamp g n) n
            (bumpChanges (stampNode (g.store n) g.stabilizationNum))).store n
            = bumpChanges (stampNode (g.store n) g.stabilizationNum) := setN_same _ _ _
        have h0n : 0 ≤ (g.store n).height := hC.2.1 n hn
        have hedge : ∀ c ∈ (bumpChanges (stampNode (g.store n) g.stabilizationNum)).children
            ++ (bumpChanges (stampNode (g.store n) g.stabilizationNum)).observers,
            (g.store n).height < ((stampChanged (recomputeStamp g n) n
              (bumpChanges (stampNode (g.store n) g.stabilizationNum))).store c).height ∧
            0 ≤ ((stampChanged (recomputeStamp g n) n
              (bumpChanges (stampNode (g.store n) g.stabilizationNum))).store c).height := by
          intro c hc
          have he := hE n hn c hc
          have hcs : ((stampChanged (recomputeStamp g n) n
              (bumpChanges (stampNode (g.store n) g.stabilizationNum))).store c).height
              = (g.store c).height := (hps2 c).1
          rw [hcs]
          exact ⟨he, by omega⟩
        obtain ⟨rfL, rfN, rfS, rfC, rfH, rfB, rfO⟩ :=
          recomputeFinish_spec
            (stampChanged (recomputeStamp g n) n
              (bumpChanges (stampNode (g.store n) g.stabilizationNum)))
            n (bumpChanges (stampNode (g.store n) g.stabilizationNum)) (g.store n).height
            (by rw [hsn]) (by rw [hsn]) (by rw [hsn]) (by rw [hsn]) (by rw [hsn])
            hH2 hB2 hedge
        have hcoreFull : coreEq (recomputeFinish
            (stampChanged (recomputeStamp g n) n
              (bumpChanges (stampNode (g.store n) g.stabilizationNum)))
            n (bumpChanges (stampNode (g.store n) g.stabilizationNum))).store g.store :=
          coreEq_trans rfC hpc2
        have hnodesFull : (recomputeFinish
            (stampChanged (recomputeStamp g n) n
              (bumpChanges (stampNode (g.store n) g.stabilizationNum)))
            n (bumpChanges (stampNode (g.store n) g.stabilizationNum))).nodes = g.nodes := by
          rw [rfN]; rfl
        refine ⟨by rw [rfL]; rfl, rfH, EdgeOK_congr hcoreFull hnodesFull hE, ?_,
          hcoreFull, hnodesFull, by rw [rfS]; rfl, rfB⟩
        refine ClosedOK_congr hcoreFull hnodesFull ?_ hC
        intro k hk
        rcases rfO k hk with h | h
        · exact hC.1 k h
        · exact hC.2.2 n hn k h

/-- Specification of the batch loop of `Stabilize`: a prefix `D` of
the popped batch is recomputed (each member once), the invariants are
preserved, everything still queued sits strictly above the batch
height `h`, the collected `always` list only grows and only collects
listed or recomputed nodes, and on a clean run the whole batch is
recomputed with every `always` member collected. -/
theorem runBatch_spec (batch : List Nat) : ∀ (g : GGraph) (imm : List Nat) (h : Int),
    HeapOK g.store g.rh → EdgeOK g → ClosedOK g →
    (∀ k ∈ g.rh.lookup, h < (g.store k).height) →
    (∀ b ∈ batch, b ∈ g.nodes ∧ (g.store b).height = h) →
    batch.Nodup →
    ∃ D, (runBatch g batch imm).1.recomputeLog = g.recomputeLog ++ D ∧
      D ⊆ batch ∧ D.Nodup ∧
      HeapOK (runBatch g batch imm).1.store (runBatch g batch imm).1.rh ∧
      EdgeOK (runBatch g batch imm).1 ∧ ClosedOK (runBatch g batch imm).1 ∧
      coreEq (runBatch g batch imm).1.store g.store ∧
      (runBatch g batch imm).1.nodes = g.nodes ∧
      (runBatch g batch imm).1.stabilizationNum = g.stabilizationNum ∧
      (∀ k ∈ (runBatch g batch imm).1.rh.lookup,
        h < ((runBatch g batch imm).1.store k).height) ∧
      (∀ nn ∈ (runBatch g batch imm).2.1, nn ∈ imm ∨ nn ∈ D) ∧
      (∀ nn ∈ imm, nn ∈ (runBatch g batch imm).2.1) ∧
      ((runBatch g batch imm).2.2 = none →
        ∀ nn ∈ batch, (g.store nn).always = true → nn ∈ (runBatch g batch imm).2.1) := by
  induction batch with
  | nil =>
    intro g imm h hH hE hC hlk _ _
    exact ⟨[], by simp [runBatch], by simp, List.nodup_nil, hH, hE, hC, coreEq_refl _,
      rfl, rfl, hlk, fun nn hnn => Or.inl hnn, fun nn hnn => hnn,
      fun _ nn hnn => absurd hnn (List.not_mem_nil nn)⟩
  | cons b rest ih =>
    intro g imm h hH hE hC hlk hbatch hnd
    have hb := hbatch b (List.mem_cons_self b rest)
    have hlkb : ∀ k ∈ g.rh.lookup, (g.store b).height < (g.store k).height := by
      intro k hk
      rw [hb.2]
      exact hlk k hk
    obtain ⟨rL, rH, rE, rC, rCore, rN, rS, rB⟩ := recompute_spec g b hH hE hC hb.1 hlkb
    have rB2 : ∀ k ∈ (recompute g b).1.rh.lookup, h < ((recompute g b).1.store k).height := by
      intro k hk
      have hx := rB k hk
      rw [hb.2] at hx
      exact hx
    cases hre : (recompute g b).2 with
    | some e =>
      have hq : runBatch g (b :: rest) imm = ((recompute g b).1, imm, some e) := by
        simp only [runBatch, hre]
      rw [hq]
      refine ⟨[b], rL, ?_, by simp, rH, rE, rC, rCore, rN, rS, rB2,
        fun nn hnn => Or.inl hnn, fun nn hnn => hnn, ?_⟩
      · intro x hx
        have hxb : x = b := by simpa using hx
        rw [hxb]
        exact List.mem_cons_self b rest
      · intro hc
        exact absurd hc (by simp)
    | none =>
      have hq : runBatch g (b :: rest) imm
          = runBatch (recompute g b).1 rest
              (if ((recompute g b).1.store b).always = true then imm ++ [b] else imm) := by
        simp only [runBatch, hre]
      rw [hq]
      have hbatch2 : ∀ b2 ∈ rest, b2 ∈ (recompute g b).1.nodes ∧
          ((recompute g b).1.store b2).height = h := by
        intro b2 hb2
        have hx := hbatch b2 (List.mem_cons_of_mem b hb2)
        exact ⟨by rw [rN]; exact hx.1, by rw [(rCore b2).1]; exact hx.2⟩
      obtain ⟨D, iL, iSub, iNd, iH, iE, iC, iCore, iN, iS, iB, iO, iM, iErr⟩ :=
        ih (recompute g b).1
          (if ((recompute g b).1.store b).always = true then imm ++ [b] else imm)
          h rH rE rC rB2 hbatch2 (List.nodup_cons.1 hnd).2
      have hbnr : b ∉ rest := (List.nodup_cons.1 hnd).1
      refine ⟨b :: D, by rw [iL, rL, List.append_assoc]; rfl, ?_,
        List.nodup_cons.2 ⟨fun hc => hbnr (iSub hc), iNd⟩,
        iH, iE, iC, coreEq_trans iCore rCore, by rw [iN, rN], by rw [iS, rS],
        iB, ?_, ?_, ?_⟩
      · intro x hx
        rcases List.mem_cons.1 hx with h1 | h1
        · rw [h1]; exact List.mem_cons_self b rest
        · exact List.mem_cons_of_mem b (iSub h1)
      · intro nn hnn
        rcases iO nn hnn with h1 | h1
        · by_cases halw : ((recompute g b).1.store b).always = true
          · rw [if_pos halw] at h1
            rcases List.mem_append.1 h1 with h2 | h2
            · exact Or.inl h2
            · have hnb : nn = b := by simpa using h2
              exact Or.inr (by rw [hnb]; exact List.mem_cons_self b D)
          · rw [if_neg halw] at h1
            exact Or.inl h1
        · exact Or.inr (List.mem_cons_of_mem b h1)
      · intro nn hnn
        apply iM
        by_cases halw : ((recompute g b).1.store b).always = true
        · rw [if_pos halw]; exact List.mem_append_left _ hnn
        · rw [if_neg halw]; exact hnn
      · intro herr nn hnn halw
        rcases List.mem_cons.1 hnn with h1 | h1
        · rw [h1]
          have halw2 : ((recompute g b).1.store b).always = true := by
            rw [(rCore b).2.2.2, ← h1]; exact halw
          apply iM
          rw [if_pos halw2]
          exact List.mem_append_right _ (by simp)
        · have halw2 : ((recompute g b).1.store nn).always = true := by
            rw [(rCore nn).2.2.2]; exact halw
          exact iErr herr nn h1 halw2

/-- Specification of the drain loop of `Stabilize`: the recompute log
grows by a duplicate-free list `L2` extending the invariant-carrying
suffix `L`, every logged node sits strictly below everything still
queued when the loop stops (heights never change during the pass), the
collected `always` list only grows and only collects logged or listed
nodes, and on a clean drain every newly logged `always` node is
collected for the post-pass re-add. -/
theorem drainLoop_spec (fuel : Nat) : ∀ (g : GGraph) (imm L0 L : List Nat),
    HeapOK g.store g.rh → EdgeOK g → ClosedOK g →
    g.recomputeLog = L0 ++ L → L.Nodup →
    (∀ m ∈ L, ∀ k ∈ g.rh.lookup, (g.store m).height < (g.store k).height) →
    ∃ L2, (drainLoop fuel g imm).1.recomputeLog = L0 ++ L2 ∧ L2.Nodup ∧
      (∀ nn ∈ L, nn ∈ L2) ∧
      (∀ m ∈ L2, ∀ k ∈ (drainLoop fuel g imm).1.rh.lookup,
        ((drainLoop fuel g imm).1.store m).height
          < ((drainLoop fuel g imm).1.store k).height) ∧
      coreEq (drainLoop fuel g imm).1.store g.store ∧
      (∀ nn ∈ (drainLoop fuel g imm).2.1, nn ∈ imm ∨ nn ∈ L2) ∧
      (∀ nn ∈ imm, nn ∈ (drainLoop fuel g imm).2.1) ∧
      ((drainLoop fuel g imm).2.2 = none →
        ∀ nn ∈ L2, nn ∉ L → (g.store nn).always = true →
          nn ∈ (drainLoop fuel g imm).2.1) := by
  induction fuel with
  | zero =>
    intro g imm L0 L hH hE hC hlog hnd hinv
    exact ⟨L, hlog, hnd, fun nn hnn => hnn, hinv, coreEq_refl _,
      fun nn hnn => Or.inl hnn, fun nn hnn => hnn,
      fun _ nn hnn hnot _ => absurd hnn hnot⟩
  | succ fuel ih =>
    intro g imm L0 L hH hE hC hlog hnd hinv
    by_cases hlen : 0 < g.rh.lookup.length
    · have hne : g.rh.lookup ≠ [] := List.length_pos.1 hlen
      obtain ⟨rmsB, rmsNE, rmsND, rmsMem, rmsStore, rmsLk, rmsGT, rmsOK, _⟩ :=
        removeMinHeight_spec g.store g.rh hH hne
      have hcore1 : coreEq (removeMinHeight g.store g.rh).1 g.store := by
        intro m
        rw [rmsStore m]
        by_cases hm : m ∈ g.rh.heights.getD g.rh.minHeight.toNat []
        · rw [if_pos hm]; exact ⟨rfl, rfl, rfl, rfl⟩
        · rw [if_neg hm]; exact ⟨rfl, rfl, rfl, rfl⟩
      have hE1 : EdgeOK { g with store := (removeMinHeight g.store g.rh).1, rh := (removeMinHeight g.store g.rh).2.1 } :=
        EdgeOK_congr hcore1 rfl hE
      have hC1 : ClosedOK { g with store := (removeMinHeight g.store g.rh).1, rh := (removeMinHeight g.store g.rh).2.1 } :=
        ClosedOK_congr hcore1 rfl (fun k hk => hC.1 k ((rmsLk k).1 hk).1) hC
      have hbatchG1 : ∀ b ∈ (removeMinHeight g.store g.rh).2.2,
          b ∈ g.nodes ∧ ((removeMinHeight g.store g.rh).1 b).height = g.rh.minHeight := by
        intro b hbm
        have hbm2 : b ∈ g.rh.heights.getD g.rh.minHeight.toNat [] := by
          rw [← rmsB]; exact hbm
        have hx := rmsMem b hbm2
        exact ⟨hC.1 b hx.1, by rw [(hcore1 b).1]; exact hx.2⟩
      have hndB : ((removeMinHeight g.store g.rh).2.2).Nodup := by
        rw [rmsB]; exact rmsND
      obtain ⟨D, bL, bSub, bNd, bH, bE, bC, bCore, bN, bS, bB, bO, bM, bErr⟩ :=
        runBatch_spec (removeMinHeight g.store g.rh).2.2
          { g with store := (removeMinHeight g.store g.rh).1, rh := (removeMinHeight g.store g.rh).2.1 }
          imm g.rh.minHeight rmsOK hE1 hC1 rmsGT hbatchG1 hndB
      have hcoreFull : coreEq (runBatch { g with store := (removeMinHeight g.store g.rh).1, rh := (removeMinHeight g.store g.rh).2.1 }
          (removeMinHeight g.store g.rh).2.2 imm).1.store g.store :=
        coreEq_trans bCore hcore1
      have hstepL : ∀ m ∈ L, (g.store m).height < g.rh.minHeight := by
        obtain ⟨b0, hb0⟩ := List.exists_mem_of_ne_nil _ rmsNE
        have hb0x := rmsMem b0 hb0
        intro m hm
        have hx := hinv m hm b0 hb0x.1
        rw [hb0x.2] at hx
        exact hx
      have hndLD : (L ++ D).Nodup := by
        rw [List.nodup_append]
        refine ⟨hnd, bNd, ?_⟩
        intro a haL haD
        have h1 : (g.store a).height < g.rh.minHeight := hstepL a haL
        have haB : a ∈ g.rh.heights.getD g.rh.minHeight.toNat [] := by
          rw [← rmsB]; exact bSub haD
        have h2 : (g.store a).height = g.rh.minHeight := (rmsMem a haB).2
        omega
      have hlogRB : (runBatch { g with store := (removeMinHeight g.store g.rh).1, rh := (removeMinHeight g.store g.rh).2.1 }
          (removeMinHeight g.store g.rh).2.2 imm).1.recomputeLog = L0 ++ (L ++ D) := by
        rw [bL]
        show g.recomputeLog ++ D = L0 ++ (L ++ D)
        rw [hlog, List.append_assoc]
      have hinvRB : ∀ m ∈ L ++ D,
          ∀ k ∈ (runBatch { g with store := (removeMinHeight g.store g.rh).1, rh := (removeMinHeight g.store g.rh).2.1 }
            (removeMinHeight g.store g.rh).2.2 imm).1.rh.lookup,
          ((runBatch { g with store := (removeMinHeight g.store g.rh).1, rh := (removeMinHeight g.store g.rh).2.1 }
            (removeMinHeight g.store g.rh).2.2 imm).1.store m).height
          < ((runBatch { g with store := (removeMinHeight g.store g.rh).1, rh := (removeMinHeight g.store g.rh).2.1 }
            (removeMinHeight g.store g.rh).2.2 imm).1.store k).height := by
        intro m hm k hk
        have hkgt := bB k hk
        rw [(hcoreFull m).1]
        rcases List.mem_append.1 hm with h1 | h1
        · exact lt_trans (hstepL m h1) hkgt
        · have haB : m ∈ g.rh.heights.getD g.rh.minHeight.toNat [] := by
            rw [← rmsB]; exact bSub h1
          have h2 : (g.store m).height = g.rh.minHeight := (rmsMem m haB).2
          rw [h2]
          exact hkgt
      cases herr : (runBatch { g with store := (removeMinHeight g.store g.rh).1, rh := (removeMinHeight g.store g.rh).2.1 }
          (removeMinHeight g.store g.rh).2.2 imm).2.2 with
      | some e =>
        have hq : drainLoop (Nat.succ fuel) g imm
            = ((runBatch { g with store := (removeMinHeight g.store g.rh).1, rh := (removeMinHeight g.store g.rh).2.1 }
                (removeMinHeight g.store g.rh).2.2 imm).1,
              (runBatch { g with store := (removeMinHeight g.store g.rh).1, rh := (removeMinHeight g.store g.rh).2.1 }
                (removeMinHeight g.store g.rh).2.2 imm).2.1, some e) := by
          simp only [drainLoop, herr]
          rw [if_pos hlen]
        rw [hq]
        exact ⟨L ++ D, hlogRB, hndLD, fun nn hnn => List.mem_append_left _ hnn,
          hinvRB, hcoreFull,
          fun nn hnn => (bO nn hnn).imp_right (List.mem_append_right _),
          bM, fun hc => absurd hc (by simp)⟩
      | none =>
        have hq : drainLoop (Nat.succ fuel) g imm
            = drainLoop fuel
              (runBatch { g with store := (removeMinHeight g.store g.rh).1, rh := (removeMinHeight g.store g.rh).2.1 }
                (removeMinHeight g.store g.rh).2.2 imm).1
              (runBatch { g with store := (removeMinHeight g.store g.rh).1, rh := (removeMinHeight g.store g.rh).2.1 }
                (removeMinHeight g.store g.rh).2.2 imm).2.1 := by
          simp only [drainLoop, herr]
          rw [if_pos hlen]
        rw [hq]
        obtain ⟨L2, jL, jNd, jSup, jInv, jCore, jO, jM, jErr⟩ :=
          ih (runBatch { g with store := (removeMinHeight g.store g.rh).1, rh := (removeMinHeight g.store g.rh).2.1 }
              (removeMinHeight g.store g.rh).2.2 imm).1
            (runBatch { g with store := (removeMinHeight g.store g.rh).1, rh := (removeMinHeight g.store g.rh).2.1 }
              (removeMinHeight g.store g.rh).2.2 imm).2.1
            L0 (L ++ D) bH bE bC hlogRB hndLD hinvRB
        refine ⟨L2, jL, jNd, fun nn hnn => jSup nn (List.mem_append_left _ hnn),
          jInv, coreEq_trans jCore hcoreFull, ?_,
          fun nn hnn => jM nn (bM nn hnn), ?_⟩
        · intro nn hnn
          rcases jO nn hnn with h1 | h1
          · rcases bO nn h1 with h2 | h2
            · exact Or.inl h2
            · exact Or.inr (jSup nn (List.mem_append_right _ h2))
          · exact Or.inr h1
        · intro herr2 nn hnn hnotL halw
          by_cases hD : nn ∈ D
          · have hnB : nn ∈ (removeMinHeight g.store g.rh).2.2 := bSub hD
            have halw1 : ((removeMinHeight g.store g.rh).1 nn).always = true := by
              rw [(hcore1 nn).2.2.2]; exact halw
            exact jM nn (bErr herr nn hnB halw1)
          · have hnotLD : nn ∉ L ++ D := by
              intro hc
              rcases List.mem_append.1 hc with h2 | h2
              · exact hnotL h2
              · exact hD h2
            have halwB : ((runBatch { g with store := (removeMinHeight g.store g.rh).1, rh := (removeMinHeight g.store g.rh).2.1 }
                (removeMinHeight g.store g.rh).2.2 imm).1.store nn).always = true := by
              rw [(hcoreFull nn).2.2.2]; exact halw
            exact jErr herr2 nn hnn hnotLD halwB
    · have hq : drainLoop (Nat.succ fuel) g imm = (g, imm, none) := by
        simp only [drainLoop]
        rw [if_neg hlen]
      rw [hq]
      exact ⟨L, hlog, hnd, fun nn hnn => hnn, hinv, coreEq_refl _,
        fun nn hnn => Or.inl hnn, fun nn hnn => hnn,
        fun _ nn hnn hnot _ => absurd hnn hnot⟩

/-- C8: under the graph invariants (heap representation, strict
edge-height discipline, node-set closure) and starting outside a
pass with an empty recompute log, one call to `Stabilize` recomputes
every node — in particular every `always` node — at most once, and an
`always` node that was recomputed is no longer in the recompute heap
when the drain loop stops: it is re-added only by the post-drain
re-add, so on a clean pass it sits in the returned graph's heap
awaiting the next stabilization rather than re-firing in this one. -/
theorem c8_always_at_most_once (fuel : Nat) (g : GGraph) (n : Nat)
    (hH : HeapOK g.store g.rh) (hE : EdgeOK g) (hC : ClosedOK g)
    (hst : g.status = StatusNotStabilizing)
    (hlog : g.recomputeLog = []) :
    (Stabilize fuel g).1.recomputeLog.count n ≤ 1 ∧
    ((g.store n).always = true →
      n ∈ (drainLoop fuel (stabilizeStart g) []).1.recomputeLog →
      n ∉ (drainLoop fuel (stabilizeStart g) []).1.rh.lookup ∧
      ((drainLoop fuel (stabilizeStart g) []).2.2 = none →
        n ∈ (Stabilize fuel g).1.rh.lookup)) := by
  have hens : ensureNotStabilizing g = none := by
    rw [ensureNotStabilizing, if_neg (by simp [hst])]
  have hlogS : (stabilizeStart g).recomputeLog = [] ++ ([] : List Nat) := by
    show g.recomputeLog = _
    rw [hlog]
    rfl
  obtain ⟨L2, dL, dNd, _, dInv, _, _, _, dErr⟩ :=
    drainLoop_spec fuel (stabilizeStart g) [] [] [] hH hE hC hlogS List.nodup_nil
      (fun m hm => absurd hm (List.not_mem_nil m))
  have hSt : Stabilize fuel g
      = (stabilizeEnd
          { (drainLoop fuel (stabilizeStart g) []).1 with
            store := (addList (drainLoop fuel (stabilizeStart g) []).1.store
              (drainLoop fuel (stabilizeStart g) []).1.rh
              (drainLoop fuel (stabilizeStart g) []).2.1).1,
            rh := (addList (drainLoop fuel (stabilizeStart g) []).1.store
              (drainLoop fuel (stabilizeStart g) []).1.rh
              (drainLoop fuel (stabilizeStart g) []).2.1).2 }
          (drainLoop fuel (stabilizeStart g) []).2.2,
        (drainLoop fuel (stabilizeStart g) []).2.2) := by
    simp only [Stabilize, hens]
  have hlogSt : (Stabilize fuel g).1.recomputeLog
      = (drainLoop fuel (stabilizeStart g) []).1.recomputeLog := by
    rw [hSt]
    exact stabilizeEnd_log _ (drainLoop fuel (stabilizeStart g) []).2.2
  constructor
  · rw [hlogSt, dL]
    simp only [List.nil_append]
    exact List.nodup_iff_count_le_one.mp dNd n
  · intro halw hmem
    have hmemL2 : n ∈ L2 := by
      rw [dL] at hmem
      simpa using hmem
    constructor
    · intro hcon
      exact absurd (dInv n hmemL2 n hcon) (lt_irrefl _)
    · intro herrNone
      have himm : n ∈ (drainLoop fuel (stabilizeStart g) []).2.1 :=
        dErr herrNone n hmemL2 (List.not_mem_nil n) halw
      rw [hSt]
      exact stabilizeEnd_lookup_mono _ (drainLoop fuel (stabilizeStart g) []).2.2 n
        (addList_lookup_of_mem _ _ _ n himm)

/-- C8 witness: `c8Graph` holds a single observed `always` node (id 1,
height 0) in its heap; one pass (fuel 2) recomputes it once, and the
post-drain re-add leaves it queued for a later pass. -/
theorem c8_always_at_most_once_witness :
    (Stabilize 2 c8Graph).1.recomputeLog.count 1 ≤ 1 ∧
    ((c8Graph.store 1).always = true →
      1 ∈ (drainLoop 2 (stabilizeStart c8Graph) []).1.recomputeLog →
      1 ∉ (drainLoop 2 (stabilizeStart c8Graph) []).1.rh.lookup ∧
      ((drainLoop 2 (stabilizeStart c8Graph) []).2.2 = none →
        1 ∈ (Stabilize 2 c8Graph).1.rh.lookup)) :=
  c8_always_at_most_once 2 c8Graph 1 (by decide) (by decide) (by decide) (by decide) rfl
